import Mathlib

/-!
# TGA loader (`src/tga.c`): shallow embedding and verified properties

The C functions `_tgaLoadHeader`, `_tgaLoadImageData`, `tgaLoad` and
`tgaRGBtoGreyscale` are embedded as state-passing Lean functions.

Conventions of the embedding
* a byte (`unsigned char`) is a `Fin 256`; `short int` is 16 bits, `int` is
  32 bits (products are reduced by `wrap32`), `size_t` is 64 bits
  (`toSizeT`), the host is little-endian;
* a stream (`FILE`) is the list of bytes still to be delivered, followed either
  by end-of-file or by a device error; `fread` sets the error indicator only
  in the second case, exactly as `ferror` reports it;
* `malloc` is an oracle (`Heap`): it decides whether a request is granted and
  fixes the indeterminate contents of fresh memory;
* an execution with undefined behaviour (an access outside a buffer, a null
  dereference, a signed overflow of a loop counter) is the value `none` of the
  outer `Option`;
* `double` arithmetic is IEEE-754 binary64 with round-to-nearest-even, every
  operation rounded once; values are integers counting units of `2^-56`.

Lines 137-139 of `tgaLoad` write a diagnostic file `Silly.txt` and check none
of the three calls (`writeSilly`). `tgaLoad` therefore takes, besides the file
system, the oracle `canCreate` that tells which names can be opened for
writing: when `Silly.txt` cannot be created the call has no defined result,
and otherwise the image file is opened in the file system as that write has
left it.
-/

namespace Tga

/-- One `unsigned char`. -/
abbrev Byte := Fin 256

/-- Modelled from the spec: the status constants of `tga.h` (the header is not
among the sources); section 7 of the spec lists these six results of a load. -/
inductive tgaStatus where
  | TGA_OK
  | TGA_ERROR_FILE_OPEN
  | TGA_ERROR_READING_FILE
  | TGA_ERROR_INDEXED_COLOR
  | TGA_ERROR_MEMORY
  | TGA_ERROR_COMPRESSED_FILE
  deriving DecidableEq, Repr

/-- Modelled from the spec: channel-layout tag `GL_RGB` (OpenGL header, not
among the sources); the value is the standard OpenGL enumerant. -/
def GL_RGB : Nat := 0x1907
/-- Modelled from the spec: channel-layout tag `GL_RGBA`. -/
def GL_RGBA : Nat := 0x1908
/-- Modelled from the spec: channel-layout tag `GL_LUMINANCE`. -/
def GL_LUMINANCE : Nat := 0x1909
/-- Modelled from the spec: component tag `GL_RGB8`. -/
def GL_RGB8 : Nat := 0x8051
/-- Modelled from the spec: component tag `GL_RGBA8`. -/
def GL_RGBA8 : Nat := 0x8058
/-- Modelled from the spec: component tag `GL_LUMINANCE8`. -/
def GL_LUMINANCE8 : Nat := 0x8040

/-- Modelled from the spec: the descriptor `tgaInfo` of `tga.h` (not among the
sources), with the fields that `tga.c` reads and writes. `imageData = none` is
the null pointer. -/
structure tgaInfo where
  status : tgaStatus
  type : Byte
  pixelDepth : Byte
  width : Int
  height : Int
  format : Nat
  components : Nat
  imageData : Option (List Byte)
  deriving DecidableEq, Repr

/-! ## Machine arithmetic -/

/-- Reduction of an integer to the range of a 32-bit signed `int`. -/
def wrap32 (x : Int) : Int := (x + 2 ^ 31) % 2 ^ 32 - 2 ^ 31

/-- Conversion of an `int` to the 64-bit unsigned `size_t`. -/
def toSizeT (x : Int) : Nat := (x % 2 ^ 64).toNat

/-- The `short int` whose low and high bytes are `lo` and `hi`. -/
def short16 (lo hi : Byte) : Int :=
  if lo.val + 256 * hi.val < 32768 then ((lo.val + 256 * hi.val : Nat) : Int)
  else ((lo.val + 256 * hi.val : Nat) : Int) - 65536

/-- High byte of the two-byte representation of a `short int`. -/
def hiByte (x : Int) : Byte := Fin.ofNat ((x / 256) % 256).toNat

/-! ## Streams -/

/-- What follows the last byte of a stream. -/
inductive StreamEnd where
  | eof
  | ioError
  deriving DecidableEq, Repr

/-- State of an open stream. -/
structure FILE where
  rest : List Byte
  tail : StreamEnd
  err : Bool
  atEof : Bool
  deriving DecidableEq, Repr

/-- A file on disk: its bytes and what reading past them yields. -/
structure DiskFile where
  bytes : List Byte
  tail : StreamEnd
  deriving DecidableEq, Repr

/-- The call `fopen(filename, "rb")` over a file system `fs`; `none` is `NULL`. -/
def fopen (fs : String → Option DiskFile) (filename : String) : Option FILE :=
  (fs filename).map fun d => { rest := d.bytes, tail := d.tail, err := false, atEof := false }

/-- The call `fread(ptr, 1, n, file)`: the bytes delivered and the new stream
state. A short read sets the end-of-file indicator or, when the device fails,
the error indicator. -/
def fread (file : FILE) (n : Nat) : List Byte × FILE :=
  (file.rest.take n,
   { file with
       rest := file.rest.drop n
       err := file.err || (decide (file.rest.length < n) && decide (file.tail = StreamEnd.ioError))
       atEof := file.atEof || (decide (file.rest.length < n) && decide (file.tail = StreamEnd.eof)) })

/-- The call `ferror(file)`. -/
def ferror (file : FILE) : Bool := file.err

/-- Effect of `fread(&x, sizeof(unsigned char), 1, file)` on `x`. -/
def storeByte (old : Byte) (got : List Byte) : Byte :=
  match got with
  | [] => old
  | b :: _ => b

/-- Effect of `fread(&x, sizeof(short int), 1, file)` on `x`; when only one
byte could be delivered it overwrites the low byte. -/
def storeShort (old : Int) (got : List Byte) : Int :=
  match got with
  | [] => old
  | [lo] => short16 lo (hiByte old)
  | lo :: hi :: _ => short16 lo hi

/-! ## Heap -/

/-- The allocator: `grants n` tells whether a request of `n` bytes succeeds,
`junk i` is the indeterminate content of byte `i` of a fresh block, `count`
counts the blocks handed out. -/
structure Heap where
  grants : Nat → Bool
  junk : Nat → Byte
  count : Nat

/-- The call `malloc(n)` for a pixel buffer; `none` is `NULL`. -/
def malloc (heap : Heap) (n : Nat) : Option (List Byte) × Heap :=
  if heap.grants n then
    (some ((List.range n).map heap.junk), { heap with count := heap.count + 1 })
  else (none, heap)

/-! ## `_tgaLoadHeader` -/

/-- Lines 83-98: the switch on `pixelDepth / 8` that sets `format` and
`components`; there is no default case. -/
def formatSwitch (info : tgaInfo) : tgaInfo :=
  let sDepth := info.pixelDepth.val / 8
  if sDepth = 3 then { info with format := GL_RGB, components := GL_RGB8 }
  else if sDepth = 4 then { info with format := GL_RGBA, components := GL_RGBA8 }
  else if sDepth = 1 then { info with format := GL_LUMINANCE, components := GL_LUMINANCE8 }
  else info

/-- Lines 59-99: the twelve reads of the header and the format switch. -/
def _tgaLoadHeader (file : FILE) (info : tgaInfo) : FILE × tgaInfo :=
  let f1 := (fread file 1).2
  let f2 := (fread f1 1).2
  let r3 := fread f2 1
  let info := { info with type := storeByte info.type r3.1 }
  let f4 := (fread r3.2 2).2
  let f5 := (fread f4 2).2
  let f6 := (fread f5 1).2
  let f7 := (fread f6 2).2
  let f8 := (fread f7 2).2
  let r9 := fread f8 2
  let info := { info with width := storeShort info.width r9.1 }
  let r10 := fread r9.2 2
  let info := { info with height := storeShort info.height r10.1 }
  let r11 := fread r10.2 1
  let info := { info with pixelDepth := storeByte info.pixelDepth r11.1 }
  let f12 := (fread r11.2 1).2
  (f12, formatSwitch info)

/-! ## `_tgaLoadImageData` -/

/-- Lines 121-125: `for (i = 0; i < total; i += mode)` exchanging bytes `i` and
`i+2`. The first argument bounds the number of iterations. -/
def swapLoop (mode : Nat) (total : Int) : Nat → Nat → List Byte → Option (List Byte)
  | 0, i, d => if (i : Int) < total then none else some d
  | fuel + 1, i, d =>
    if (i : Int) < total then
      match d[i]?, d[i + 2]? with
      | some a, some b =>
        if i + mode < 2 ^ 31 then
          swapLoop mode total fuel (i + mode) ((d.set i b).set (i + 2) a)
        else none
      | _, _ => none
    else some d

/-- The byte count `height * width * mode` as the `int` expression of lines
114 and 181. -/
def totalBytes (info : tgaInfo) : Int :=
  wrap32 (wrap32 (info.height * info.width) * ((info.pixelDepth.val / 8 : Nat) : Int))

/-- Lines 105-126: read `total` bytes into the buffer, then exchange bytes 0
and 2 of each pixel when `mode >= 3`. -/
def _tgaLoadImageData (file : FILE) (info : tgaInfo) : Option (FILE × tgaInfo) :=
  let mode := info.pixelDepth.val / 8
  let total := totalBytes info
  let r := fread file (toSizeT total)
  match info.imageData with
  | none => none
  | some buf =>
    if buf.length < r.1.length then none
    else
      let buf := r.1 ++ buf.drop r.1.length
      if 3 ≤ mode then
        (swapLoop mode total total.toNat 0 buf).map fun b => (r.2, { info with imageData := some b })
      else some (r.2, { info with imageData := some buf })

/-! ## `tgaLoad` -/

/-- What a call of `tgaLoad` leaves behind: the returned pointer (`none` is
`NULL`), the state of the stream when it was closed (`none` when no stream was
opened) and the heap. -/
structure LoadResult where
  ret : Option tgaInfo
  file : Option FILE
  heap : Heap

/-- Lines 156-204 of `tgaLoad`: the checks that follow the header, the
allocation of the pixel buffer and the pixel read. -/
def tgaLoadChecks (file : FILE) (info : tgaInfo) (heap : Heap) : Option LoadResult :=
  if ferror file then
    some { ret := some { info with status := tgaStatus.TGA_ERROR_READING_FILE },
           file := some file, heap := heap }
  else if info.type = 1 then
    some { ret := some { info with status := tgaStatus.TGA_ERROR_INDEXED_COLOR },
           file := some file, heap := heap }
  else if info.type ≠ 2 ∧ info.type ≠ 3 then
    some { ret := some { info with status := tgaStatus.TGA_ERROR_COMPRESSED_FILE },
           file := some file, heap := heap }
  else
    let m := malloc heap (toSizeT (totalBytes info))
    let info := { info with imageData := m.1 }
    match m.1 with
    | none =>
      some { ret := some { info with status := tgaStatus.TGA_ERROR_MEMORY },
             file := some file, heap := m.2 }
    | some _ =>
      match _tgaLoadImageData file info with
      | none => none
      | some (file, info) =>
        if ferror file then
          some { ret := some { info with status := tgaStatus.TGA_ERROR_READING_FILE },
                 file := some file, heap := m.2 }
        else
          some { ret := some { info with status := tgaStatus.TGA_OK },
                 file := some file, heap := m.2 }

/-- Lines 141-205 of `tgaLoad`, from the allocation of the descriptor on, over
the file system `fs` as lines 137-139 have left it. `block` is the result of
`malloc(sizeof(tgaInfo))`: `none` for `NULL`, otherwise the indeterminate
contents of the fresh descriptor. -/
def tgaLoadFrom (fs : String → Option DiskFile) (block : Option tgaInfo) (heap : Heap)
    (filename : String) : Option LoadResult :=
  match block with
  | none => some { ret := none, file := none, heap := heap }
  | some info =>
    match fopen fs filename with
    | none =>
      some { ret := some { info with status := tgaStatus.TGA_ERROR_FILE_OPEN },
             file := none, heap := heap }
    | some file =>
      let h := _tgaLoadHeader file info
      tgaLoadChecks h.1 h.2 heap

/-- The seven characters of the string `"String\n"` that line 138 writes. -/
def sillyBytes : List Byte := [83, 116, 114, 105, 110, 103, 10]

/-- Lines 137-139 of `tgaLoad`: `fopen("Silly.txt", "w")`, `fwrite("String\n", 1, 7, testFile)`
and `fclose(testFile)`, none of them checked. `canCreate name` tells whether
the file `name` can be opened for writing. When `Silly.txt` cannot be created
`fwrite` is handed a null stream and the execution is undefined (`none`);
otherwise the result is the file system in which `Silly.txt` holds the seven
bytes written, whatever it held before (a file that could be created is taken
to receive all seven bytes). -/
def writeSilly (canCreate : String → Bool) (fs : String → Option DiskFile) :
    Option (String → Option DiskFile) :=
  if canCreate "Silly.txt" then
    some fun name =>
      if name = "Silly.txt" then some { bytes := sillyBytes, tail := StreamEnd.eof } else fs name
  else none

/-- Lines 131-205: the diagnostic file is written first, then the descriptor is
allocated and the image file is opened and read. -/
def tgaLoad (canCreate : String → Bool) (fs : String → Option DiskFile)
    (block : Option tgaInfo) (heap : Heap) (filename : String) : Option LoadResult :=
  match writeSilly canCreate fs with
  | none => none
  | some fs1 => tgaLoadFrom fs1 block heap filename

/-! ## `tgaRGBtoGreyscale` -/

/-- The `double` nearest to `0.30`, in units of `2^-56`. -/
def D030 : Nat := 21617278211378380
/-- The `double` nearest to `0.59`, in units of `2^-56`. -/
def D059 : Nat := 42513980482377480
/-- The `double` nearest to `0.11`, in units of `2^-56`. -/
def D011 : Nat := 7926335344172073

/-- How many low-order bits of `n` lie beyond a 53-bit significand: the least
`s` with `n / 2^s < 2^53` (the first argument bounds the search). -/
def excessBits : Nat → Nat → Nat
  | 0, _ => 0
  | fuel + 1, n => if n < 2 ^ 53 then 0 else excessBits fuel (n / 2) + 1

/-- Rounding of an exact result (a count of units of `2^-56`) to a binary64
value: 53 significant bits, round to nearest, ties to even. -/
def rnd53 (n : Nat) : Nat :=
  let s := excessBits n n
  let q := n / 2 ^ s
  let r := n % 2 ^ s
  if 2 * r < 2 ^ s then q * 2 ^ s
  else if 2 ^ s < 2 * r then (q + 1) * 2 ^ s
  else if q % 2 = 0 then q * 2 ^ s
  else (q + 1) * 2 ^ s

/-- The `double` value of `0.30 * r + 0.59 * g + 0.11 * b` as C evaluates it
(left to right), in units of `2^-56`. -/
def greyDouble (r g b : Byte) : Nat :=
  rnd53 (rnd53 (rnd53 (D030 * r.val) + rnd53 (D059 * g.val)) + rnd53 (D011 * b.val))

/-- Lines 231-233: the conversion `(unsigned char)(0.30*R + 0.59*G + 0.11*B)`. -/
def greyOf (r g b : Byte) : Byte := Fin.ofNat (greyDouble r g b / 2 ^ 56)

/-- Spec formula: `floor(0.30*R + 0.59*G + 0.11*B)` with the weights read as
the exact fractions 30/100, 59/100 and 11/100 (this definition follows the
words of the spec, not the code). -/
def greyExact (r g b : Byte) : Nat := (30 * r.val + 59 * g.val + 11 * b.val) / 100

/-- Lines 230-233: `for (i = 0, j = 0; j < width*height; i += mode, j++)`
storing the grey value of the pixel at `i` into byte `j` of the new buffer.
The first argument bounds the number of iterations. -/
def greyLoop (mode : Nat) (n : Int) (src : Option (List Byte)) :
    Nat → Nat → Nat → List Byte → Option (List Byte)
  | 0, _, j, dst => if (j : Int) < n then none else some dst
  | fuel + 1, i, j, dst =>
    if (j : Int) < n then
      match src.bind (fun d => d[i]?), src.bind (fun d => d[i + 1]?), src.bind (fun d => d[i + 2]?) with
      | some r, some g, some b =>
        if j < dst.length ∧ i + mode < 2 ^ 31 then
          greyLoop mode n src fuel (i + mode) (j + 1) (dst.set j (greyOf r g b))
        else none
      | _, _, _ => none
    else some dst

/-- Lines 210-245. The result is the descriptor and the heap after the call. -/
def tgaRGBtoGreyscale (heap : Heap) (info : tgaInfo) : Option (tgaInfo × Heap) :=
  if info.pixelDepth = 8 then some (info, heap)
  else
    let mode := info.pixelDepth.val / 8
    let m := malloc heap ((toSizeT info.height * toSizeT info.width) % 2 ^ 64)
    match m.1 with
    | none => some (info, m.2)
    | some fresh =>
      let n := wrap32 (info.width * info.height)
      (greyLoop mode n info.imageData n.toNat 0 0 fresh).map fun d =>
        ({ info with pixelDepth := 8, type := 3, imageData := some d }, m.2)

/-- Calling `tgaRGBtoGreyscale` `k` times in a row on the same descriptor. -/
def greyTimes : Nat → Heap → tgaInfo → Option (tgaInfo × Heap)
  | 0, heap, info => some (info, heap)
  | k + 1, heap, info => (tgaRGBtoGreyscale heap info).bind fun p => greyTimes k p.2 p.1

/-! ## Concrete inputs used in the examples below -/

/-- An 18-byte header with the given type, depth and little-endian width and
height bytes; the ignored bytes are zero. -/
def sampleHeader (ty depth wl wh hl hh : Byte) : List Byte :=
  [0, 0, ty, 0, 0, 0, 0, 0, 0, 0, 0, 0, wl, wh, hl, hh, depth, 0]

/-- A fresh descriptor with arbitrary contents. -/
def sampleInfo : tgaInfo :=
  { status := tgaStatus.TGA_ERROR_MEMORY, type := 77, pixelDepth := 99, width := 5, height := 6,
    format := 1, components := 2, imageData := none }

/-- A heap that grants every request below 4 GiB; fresh byte `i` holds `170 + i`. -/
def sampleHeap : Heap :=
  { grants := fun n => decide (n < 2 ^ 32), junk := fun i => Fin.ofNat (170 + i), count := 0 }

/-- A file system in which every name opens the file with the given bytes. -/
def sampleFs (bytes : List Byte) (tl : StreamEnd) : String → Option DiskFile :=
  fun _ => some { bytes := bytes, tail := tl }

/-- A working directory in which every file can be created. -/
def sampleDir : String → Bool := fun _ => true

/-- A working directory in which no file can be created (read-only). -/
def lockedDir : String → Bool := fun _ => false

/-- The channel that the exchange of bytes 0 and 2 moves to position `c`. -/
def swapCh (c : Nat) : Nat := if c = 0 then 2 else if c = 2 then 0 else c

/-- The file bytes of a list of pixels given as (blue, green, red) triplets. -/
def bgrBytes : List (Byte × Byte × Byte) → List Byte
  | [] => []
  | (b, g, r) :: t => b :: g :: r :: bgrBytes t

/-- The bytes red, green, blue of the same pixels, in this order. -/
def rgbBytes : List (Byte × Byte × Byte) → List Byte
  | [] => []
  | (b, g, r) :: t => r :: g :: b :: rgbBytes t

/-- Channel `c` of a (blue, green, red) triplet in file order. -/
def pickBGR (c : Nat) (p : Byte × Byte × Byte) : Byte :=
  if c = 0 then p.1 else if c = 1 then p.2.1 else p.2.2

/-- The pixels of a black image of 32767 x 32767 pixels. -/
@[irreducible] def hugeImage : List (Byte × Byte × Byte) :=
  List.replicate (32767 * 32767) (0, 0, 0)

/-- The grey value that the conversion loop computes for pixel `j` of `src`. -/
def greyAt (src : List Byte) (mode j : Nat) : Byte :=
  greyOf (src.getD (j * mode) 0) (src.getD (j * mode + 1) 0) (src.getD (j * mode + 2) 0)

/-- A 3 x 1 RGB descriptor with the pixels red, green and blue. -/
def sampleRGB : tgaInfo :=
  { status := tgaStatus.TGA_OK, type := 2, pixelDepth := 24, width := 3, height := 1,
    format := GL_RGB, components := GL_RGB8,
    imageData := some [255, 0, 0, 0, 255, 0, 0, 0, 255] }

/-- The descriptor that `tgaLoad` returns for the 2 x 1 file with the triplets
(1, 2, 3) and (4, 5, 6). -/
def sampleLoaded : tgaInfo :=
  { status := tgaStatus.TGA_OK, type := 2, pixelDepth := 24, width := 2, height := 1,
    format := GL_RGB, components := GL_RGB8, imageData := some [3, 2, 1, 6, 5, 4] }

/-- The buffer after `fread` has delivered what it could: the bytes read, then the rest of
the fresh block. -/
def mergedBuffer (file : FILE) (heap : Heap) (N : Nat) : List Byte :=
  (fread file N).1 ++ ((List.range N).map heap.junk).drop (fread file N).1.length

/-- A heap that refuses every request. -/
def fullHeap : Heap := { grants := fun _ => false, junk := fun _ => 0, count := 0 }

/-- A 32767 x 32767 RGB descriptor whose buffer holds all its pixels (3221028867 bytes). -/
def hugeInfo : tgaInfo :=
  { status := tgaStatus.TGA_OK, type := 2, pixelDepth := 24, width := 32767, height := 32767,
    format := GL_RGB, components := GL_RGB8, imageData := some (bgrBytes hugeImage) }

/-! ## Lemmas on streams and the header -/

theorem fread_one (b : Byte) (rest : List Byte) (tl : StreamEnd) (e a : Bool) :
    fread ⟨b :: rest, tl, e, a⟩ 1 = ([b], ⟨rest, tl, e, a⟩) := by
  simp [fread]

theorem fread_two (b c : Byte) (rest : List Byte) (tl : StreamEnd) (e a : Bool) :
    fread ⟨b :: c :: rest, tl, e, a⟩ 2 = ([b, c], ⟨rest, tl, e, a⟩) := by
  have h : ¬ (rest.length + 1 + 1 < 2) := by omega
  simp [fread, h]

theorem list_header_split (l : List Byte) (h : 18 ≤ l.length) :
    ∃ b0 b1 b2 b3 b4 b5 b6 b7 b8 b9 b10 b11 b12 b13 b14 b15 b16 b17 rest,
      l = b0 :: b1 :: b2 :: b3 :: b4 :: b5 :: b6 :: b7 :: b8 :: b9 :: b10 :: b11 :: b12 ::
        b13 :: b14 :: b15 :: b16 :: b17 :: rest := by
  iterate 18
    rcases l with _ | ⟨b, l⟩
    · simp at h
      try omega
  exact ⟨_, _, _, _, _, _, _, _, _, _, _, _, _, _, _, _, _, _, _, rfl⟩

/-- The header parse on a stream that starts with eighteen bytes. -/
theorem loadHeader_explicit
    (b0 b1 b2 b3 b4 b5 b6 b7 b8 b9 b10 b11 b12 b13 b14 b15 b16 b17 : Byte)
    (rest : List Byte) (tl : StreamEnd) (e a : Bool) (u : tgaInfo) :
    _tgaLoadHeader ⟨b0 :: b1 :: b2 :: b3 :: b4 :: b5 :: b6 :: b7 :: b8 :: b9 :: b10 :: b11 ::
        b12 :: b13 :: b14 :: b15 :: b16 :: b17 :: rest, tl, e, a⟩ u
      = (⟨rest, tl, e, a⟩,
         formatSwitch { u with type := b2, width := short16 b12 b13, height := short16 b14 b15,
                               pixelDepth := b16 }) := by
  simp [_tgaLoadHeader, fread_one, fread_two, storeByte, storeShort]

/-- The header parse on a stream of at least eighteen bytes, by position. -/
theorem loadHeader_full (bytes : List Byte) (h : 18 ≤ bytes.length) (tl : StreamEnd) (e a : Bool)
    (u : tgaInfo) :
    _tgaLoadHeader ⟨bytes, tl, e, a⟩ u
      = (⟨bytes.drop 18, tl, e, a⟩,
         formatSwitch { u with type := bytes.getD 2 0,
                               width := short16 (bytes.getD 12 0) (bytes.getD 13 0),
                               height := short16 (bytes.getD 14 0) (bytes.getD 15 0),
                               pixelDepth := bytes.getD 16 0 }) := by
  obtain ⟨b0, b1, b2, b3, b4, b5, b6, b7, b8, b9, b10, b11, b12, b13, b14, b15, b16, b17, rest,
    rfl⟩ := list_header_split bytes h
  rw [loadHeader_explicit]
  simp

/-- The format switch touches only `format` and `components`. -/
theorem formatSwitch_fields (info : tgaInfo) :
    (formatSwitch info).status = info.status ∧ (formatSwitch info).type = info.type ∧
    (formatSwitch info).pixelDepth = info.pixelDepth ∧ (formatSwitch info).width = info.width ∧
    (formatSwitch info).height = info.height ∧ (formatSwitch info).imageData = info.imageData := by
  unfold formatSwitch
  simp only []
  split_ifs <;> simp

@[simp] theorem formatSwitch_status (info : tgaInfo) :
    (formatSwitch info).status = info.status := (formatSwitch_fields info).1

@[simp] theorem formatSwitch_type (info : tgaInfo) :
    (formatSwitch info).type = info.type := (formatSwitch_fields info).2.1

@[simp] theorem formatSwitch_pixelDepth (info : tgaInfo) :
    (formatSwitch info).pixelDepth = info.pixelDepth := (formatSwitch_fields info).2.2.1

@[simp] theorem formatSwitch_width (info : tgaInfo) :
    (formatSwitch info).width = info.width := (formatSwitch_fields info).2.2.2.1

@[simp] theorem formatSwitch_height (info : tgaInfo) :
    (formatSwitch info).height = info.height := (formatSwitch_fields info).2.2.2.2.1

@[simp] theorem formatSwitch_imageData (info : tgaInfo) :
    (formatSwitch info).imageData = info.imageData := (formatSwitch_fields info).2.2.2.2.2

/-- When the descriptor itself cannot be allocated `tgaLoad` returns `NULL` (line 144) before
it opens the file. In every statement below the descriptor has been allocated: `tgaLoad` is
given `some u`, with `u` the indeterminate contents of the fresh descriptor. -/
theorem tgaLoadFrom_null (fs : String → Option DiskFile) (heap : Heap) (filename : String) :
    tgaLoadFrom fs none heap filename = some { ret := none, file := none, heap := heap } := rfl

/-- Lines 141-205 look at the file system only through the file they open. -/
theorem tgaLoadFrom_congr (fs fs1 : String → Option DiskFile) (block : Option tgaInfo)
    (heap : Heap) (filename : String) (h : fs1 filename = fs filename) :
    tgaLoadFrom fs1 block heap filename = tgaLoadFrom fs block heap filename := by
  unfold tgaLoadFrom fopen
  rw [h]

/-- When `Silly.txt` cannot be created, `fwrite` (line 138) is handed a null stream: the call
of `tgaLoad` has no defined result, whatever file it was asked to load. -/
theorem tgaLoad_not_created (canCreate : String → Bool) (fs : String → Option DiskFile)
    (block : Option tgaInfo) (heap : Heap) (filename : String)
    (hsilly : canCreate "Silly.txt" = false) :
    tgaLoad canCreate fs block heap filename = none := by
  simp [tgaLoad, writeSilly, hsilly]

/-- When `Silly.txt` can be created and another file is loaded, `tgaLoad` is lines 141-205
over the file system it was given. -/
theorem tgaLoad_created (canCreate : String → Bool) (fs : String → Option DiskFile)
    (block : Option tgaInfo) (heap : Heap) (filename : String)
    (hsilly : canCreate "Silly.txt" = true) (hname : filename ≠ "Silly.txt") :
    tgaLoad canCreate fs block heap filename = tgaLoadFrom fs block heap filename := by
  simp only [tgaLoad, writeSilly, hsilly, if_true]
  exact tgaLoadFrom_congr fs _ block heap filename (by rw [if_neg hname])

/-- When `Silly.txt` itself is loaded, what is read is the seven bytes just written. -/
theorem tgaLoad_silly (canCreate : String → Bool) (fs : String → Option DiskFile)
    (block : Option tgaInfo) (heap : Heap) (hsilly : canCreate "Silly.txt" = true) :
    tgaLoad canCreate fs block heap "Silly.txt"
      = tgaLoadFrom (fun _ => some { bytes := sillyBytes, tail := StreamEnd.eof }) block heap
          "Silly.txt" := by
  simp only [tgaLoad, writeSilly, hsilly, if_true]
  exact tgaLoadFrom_congr _ _ block heap "Silly.txt" (by rw [if_pos rfl])

/-- Every result of `tgaLoad` is a result of lines 141-205 over some file system. -/
theorem tgaLoad_some (canCreate : String → Bool) (fs : String → Option DiskFile)
    (block : Option tgaInfo) (heap : Heap) (filename : String) (r : LoadResult)
    (h : tgaLoad canCreate fs block heap filename = some r) :
    ∃ fs1, tgaLoadFrom fs1 block heap filename = some r := by
  unfold tgaLoad at h
  cases hw : writeSilly canCreate fs with
  | none => rw [hw] at h; cases h
  | some fs1 => rw [hw] at h; exact ⟨fs1, h⟩

/-- With `Silly.txt` created, the null descriptor is returned as by line 144. -/
theorem tgaLoad_null (canCreate : String → Bool) (fs : String → Option DiskFile) (heap : Heap)
    (filename : String) (hsilly : canCreate "Silly.txt" = true) :
    tgaLoad canCreate fs none heap filename
      = some { ret := none, file := none, heap := heap } := by
  simp [tgaLoad, writeSilly, hsilly, tgaLoadFrom]

/-- A valid 1 x 1 image stored under the name `Silly.txt` is overwritten before it is read:
the header parse sees the letters of `"String\n"`, whose third byte is 114, and the status is
`TGA_ERROR_COMPRESSED_FILE`. -/
theorem tgaLoad_silly_overwritten :
    ((tgaLoad sampleDir (sampleFs (sampleHeader 2 24 1 0 1 0 ++ [1, 2, 3]) StreamEnd.eof)
        (some sampleInfo) sampleHeap "Silly.txt").bind (fun r => r.ret)).map
        (fun i => (i.status, i.type))
      = some (tgaStatus.TGA_ERROR_COMPRESSED_FILE, 114) := by
  decide

/-- The load of a file that opens and holds a complete header. -/
theorem tgaLoadFrom_full_header (fs : String → Option DiskFile) (filename : String) (d : DiskFile)
    (u : tgaInfo) (heap : Heap) (hopen : fs filename = some d) (hlen : 18 ≤ d.bytes.length) :
    tgaLoadFrom fs (some u) heap filename
      = tgaLoadChecks ⟨d.bytes.drop 18, d.tail, false, false⟩
          (formatSwitch { u with type := d.bytes.getD 2 0,
                                 width := short16 (d.bytes.getD 12 0) (d.bytes.getD 13 0),
                                 height := short16 (d.bytes.getD 14 0) (d.bytes.getD 15 0),
                                 pixelDepth := d.bytes.getD 16 0 }) heap := by
  simp [tgaLoadFrom, fopen, hopen, loadHeader_full _ hlen]

/-- Two lists that agree from position 18 on have the same remainder after the header. -/
theorem drop_eq_of_agree (l l' : List Byte)
    (h : ∀ i, 18 ≤ i → l'[i]? = l[i]?) : l'.drop 18 = l.drop 18 := by
  apply List.ext_getElem?
  intro i
  rw [List.getElem?_drop, List.getElem?_drop]
  exact h (18 + i) (by omega)

theorem getD_eq_of_agree (l l' : List Byte) (i : Nat) (h : l'[i]? = l[i]?) :
    l'.getD i 0 = l.getD i 0 := by
  simp [List.getD_eq_getElem?_getD, h]

/-- The checks stop at a colour-indexed image. -/
theorem tgaLoadChecks_indexed (file : FILE) (info : tgaInfo) (heap : Heap)
    (he : file.err = false) (h1 : info.type = 1) :
    tgaLoadChecks file info heap
      = some { ret := some { info with status := tgaStatus.TGA_ERROR_INDEXED_COLOR },
               file := some file, heap := heap } := by
  simp [tgaLoadChecks, ferror, he, h1]

/-- The checks stop at any type other than 1, 2 and 3. -/
theorem tgaLoadChecks_compressed (file : FILE) (info : tgaInfo) (heap : Heap)
    (he : file.err = false) (h1 : info.type ≠ 1) (h2 : info.type ≠ 2) (h3 : info.type ≠ 3) :
    tgaLoadChecks file info heap
      = some { ret := some { info with status := tgaStatus.TGA_ERROR_COMPRESSED_FILE },
               file := some file, heap := heap } := by
  simp [tgaLoadChecks, ferror, he, h1, h2, h3]

/-- The exchange loop started at pixel `k` of `n` leaves the pixels before `k` alone and
exchanges channels 0 and 2 of every later pixel; it needs no more than `n - k` iterations. -/
theorem swapLoop_spec (mode n : Nat) (hm : 3 ≤ mode) (hb : n * mode < 2 ^ 31) :
    ∀ (m k fuel : Nat) (d : List Byte), k + m = n → m ≤ fuel → d.length = n * mode →
      ∃ d', swapLoop mode ((n * mode : Nat) : Int) fuel (k * mode) d = some d' ∧
        d'.length = d.length ∧
        ∀ j c, c < mode →
          d'[j * mode + c]? = if k ≤ j then d[j * mode + swapCh c]? else d[j * mode + c]? := by
  intro m
  induction m with
  | zero =>
    intro k fuel d hk _ hlen
    have hkn : k = n := by omega
    subst hkn
    refine ⟨d, ?_, rfl, ?_⟩
    · cases fuel <;> simp [swapLoop]
    · intro j c hc
      split_ifs with hj
      · have h1 : k * mode ≤ j * mode := Nat.mul_le_mul_right mode hj
        rw [List.getElem?_eq_none (by omega), List.getElem?_eq_none (by omega)]
      · rfl
  | succ m ih =>
    intro k fuel d hk hfuel hlen
    obtain ⟨f, rfl⟩ : ∃ f, fuel = f + 1 := ⟨fuel - 1, by omega⟩
    have hkn : k < n := by omega
    have h1 : k * mode + mode ≤ n * mode := by
      have := Nat.mul_le_mul_right mode (show k + 1 ≤ n by omega)
      rw [Nat.add_mul, Nat.one_mul] at this
      exact this
    have hcond : ((k * mode : Nat) : Int) < ((n * mode : Nat) : Int) := by
      exact_mod_cast (show k * mode < n * mode by omega)
    have hi0 : k * mode < d.length := by omega
    have hi2 : k * mode + 2 < d.length := by omega
    have hstep : (k + 1) * mode = k * mode + mode := by rw [Nat.add_mul, Nat.one_mul]
    obtain ⟨d', hd', hlen', hspec⟩ := ih (k + 1) f
      ((d.set (k * mode) d[k * mode + 2]).set (k * mode + 2) d[k * mode])
      (by omega) (by omega) (by simp [hlen])
    refine ⟨d', ?_, by simpa using hlen', ?_⟩
    · rw [swapLoop, if_pos hcond, List.getElem?_eq_getElem hi0, List.getElem?_eq_getElem hi2]
      simp only []
      rw [if_pos (by omega), ← hstep]
      exact hd'
    · intro j c hc
      rw [hspec j c hc]
      have hsw : swapCh c < mode := by unfold swapCh; split_ifs <;> omega
      rcases Nat.lt_trichotomy j k with hjk | hjk | hjk
      · have h2 : j * mode + mode ≤ k * mode := by
          have := Nat.mul_le_mul_right mode (show j + 1 ≤ k by omega)
          rw [Nat.add_mul, Nat.one_mul] at this
          exact this
        rw [if_neg (by omega), if_neg (by omega)]
        rw [List.getElem?_set, List.getElem?_set]
        rw [if_neg (by omega), if_neg (by omega)]
      · subst hjk
        rw [if_neg (by omega), if_pos (le_refl _)]
        rw [List.getElem?_set, List.getElem?_set]
        unfold swapCh
        by_cases c0 : c = 0
        · subst c0
          simp [List.getElem?_eq_getElem hi2, hi0]
        · by_cases c2 : c = 2
          · subst c2
            simp [List.getElem?_eq_getElem hi0, hi2]
          · rw [if_neg (by omega), if_neg (by omega), if_neg c0, if_neg c2]
      · have h2 : k * mode + mode ≤ j * mode := by
          have := Nat.mul_le_mul_right mode (show k + 1 ≤ j by omega)
          rw [Nat.add_mul, Nat.one_mul] at this
          exact this
        rw [if_pos (by omega), if_pos (by omega)]
        rw [List.getElem?_set, List.getElem?_set]
        rw [if_neg (by omega), if_neg (by omega)]

theorem wrap32_of_range (x : Int) (h1 : -(2 ^ 31) ≤ x) (h2 : x < 2 ^ 31) : wrap32 x = x := by
  unfold wrap32
  omega

theorem toSizeT_natCast (n : Nat) (h : n < 2 ^ 64) : toSizeT (n : Int) = n := by
  unfold toSizeT
  omega

theorem fread_enough (file : FILE) (n : Nat) (h : n ≤ file.rest.length) :
    fread file n = (file.rest.take n, { file with rest := file.rest.drop n }) := by
  have h' : ¬ (file.rest.length < n) := by omega
  simp [fread, h']

theorem malloc_granted (heap : Heap) (n : Nat) (h : heap.grants n = true) :
    malloc heap n = (some ((List.range n).map heap.junk), { heap with count := heap.count + 1 }) := by
  simp [malloc, h]

/-- The pixel read on a stream that holds all `n * mode` bytes, `mode >= 3`. -/
theorem loadImageData_rgb (file : FILE) (info : tgaInfo) (buf : List Byte) (n : Nat)
    (hm : 3 ≤ info.pixelDepth.val / 8)
    (htot : totalBytes info = ((n * (info.pixelDepth.val / 8) : Nat) : Int))
    (hb : n * (info.pixelDepth.val / 8) < 2 ^ 31)
    (hbuf : info.imageData = some buf) (hlen : buf.length = n * (info.pixelDepth.val / 8))
    (hfile : n * (info.pixelDepth.val / 8) ≤ file.rest.length) :
    ∃ d', _tgaLoadImageData file info
        = some ({ file with rest := file.rest.drop (n * (info.pixelDepth.val / 8)) },
                { info with imageData := some d' }) ∧
      d'.length = n * (info.pixelDepth.val / 8) ∧
      ∀ j c, c < info.pixelDepth.val / 8 →
        d'[j * (info.pixelDepth.val / 8) + c]?
          = (file.rest.take (n * (info.pixelDepth.val / 8)))[j * (info.pixelDepth.val / 8) + swapCh c]? := by
  generalize hmode : info.pixelDepth.val / 8 = mode at *
  have htake : (file.rest.take (n * mode)).length = n * mode := by
    rw [List.length_take]; omega
  obtain ⟨d', hd', hlen', hspec⟩ := swapLoop_spec mode n hm hb n 0 (n * mode)
    (file.rest.take (n * mode)) (by omega)
    (by calc n = n * 1 := (Nat.mul_one n).symm
          _ ≤ n * mode := Nat.mul_le_mul_left n (by omega)) htake
  refine ⟨d', ?_, by omega, ?_⟩
  · unfold _tgaLoadImageData
    simp only [hbuf, htot, hmode, toSizeT_natCast (n * mode) (by omega), fread_enough file _ hfile,
      htake, hlen, Int.toNat_ofNat]
    rw [if_neg (by omega), if_pos hm]
    have hdrop : List.drop (n * mode) buf = [] := List.drop_of_length_le (by omega)
    rw [hdrop, List.append_nil]
    rw [Nat.zero_mul] at hd'
    rw [hd']
    rfl
  · intro j c hc
    rw [hspec j c hc, if_pos (Nat.zero_le _)]

theorem bgrBytes_length (px : List (Byte × Byte × Byte)) : (bgrBytes px).length = px.length * 3 := by
  induction px with
  | nil => rfl
  | cons p t ih => obtain ⟨b, g, r⟩ := p; simp [bgrBytes, ih]; omega

theorem rgbBytes_length (px : List (Byte × Byte × Byte)) : (rgbBytes px).length = px.length * 3 := by
  induction px with
  | nil => rfl
  | cons p t ih => obtain ⟨b, g, r⟩ := p; simp [rgbBytes, ih]; omega

theorem bgrBytes_get (px : List (Byte × Byte × Byte)) (j c : Nat) (hc : c < 3) :
    (bgrBytes px)[j * 3 + c]? = px[j]?.map (pickBGR c) := by
  induction px generalizing j with
  | nil => simp [bgrBytes]
  | cons p t ih =>
    obtain ⟨b, g, r⟩ := p
    cases j with
    | zero => interval_cases c <;> simp [bgrBytes, pickBGR]
    | succ j =>
      have : (j + 1) * 3 + c = (j * 3 + c) + 1 + 1 + 1 := by omega
      rw [this]
      simp only [bgrBytes, List.getElem?_cons_succ]
      exact ih j

theorem rgbBytes_get (px : List (Byte × Byte × Byte)) (j c : Nat) (hc : c < 3) :
    (rgbBytes px)[j * 3 + c]? = px[j]?.map (pickBGR (swapCh c)) := by
  induction px generalizing j with
  | nil => simp [rgbBytes]
  | cons p t ih =>
    obtain ⟨b, g, r⟩ := p
    cases j with
    | zero => interval_cases c <;> simp [rgbBytes, pickBGR, swapCh]
    | succ j =>
      have : (j + 1) * 3 + c = (j * 3 + c) + 1 + 1 + 1 := by omega
      rw [this]
      simp only [rgbBytes, List.getElem?_cons_succ]
      exact ih j

/-- A buffer whose channels are those of `bgrBytes px` with 0 and 2 exchanged is `rgbBytes px`. -/
theorem eq_rgbBytes (px : List (Byte × Byte × Byte)) (d : List Byte)
    (h : ∀ j c, c < 3 → d[j * 3 + c]? = (bgrBytes px)[j * 3 + swapCh c]?) : d = rgbBytes px := by
  apply List.ext_getElem?
  intro i
  have hi : i = (i / 3) * 3 + i % 3 := by omega
  have hc : i % 3 < 3 := Nat.mod_lt _ (by omega)
  have hsw : swapCh (i % 3) < 3 := by unfold swapCh; split_ifs <;> omega
  rw [hi, h _ _ hc, bgrBytes_get _ _ _ hsw, rgbBytes_get _ _ _ hc]

theorem totalBytes_imageData (info : tgaInfo) (x : Option (List Byte)) :
    totalBytes { info with imageData := x } = totalBytes info := rfl

/-- The checks, the allocation and the pixel read on a complete file, `mode >= 3`. -/
theorem tgaLoadChecks_ok_rgb (file : FILE) (info : tgaInfo) (heap : Heap) (n : Nat)
    (he : file.err = false) (hty : info.type = 2 ∨ info.type = 3)
    (hm : 3 ≤ info.pixelDepth.val / 8)
    (htot : totalBytes info = ((n * (info.pixelDepth.val / 8) : Nat) : Int))
    (hb : n * (info.pixelDepth.val / 8) < 2 ^ 31)
    (hg : heap.grants (n * (info.pixelDepth.val / 8)) = true)
    (hfile : n * (info.pixelDepth.val / 8) ≤ file.rest.length) :
    ∃ d', tgaLoadChecks file info heap
        = some { ret := some { info with imageData := some d', status := tgaStatus.TGA_OK },
                 file := some { file with rest := file.rest.drop (n * (info.pixelDepth.val / 8)) },
                 heap := { heap with count := heap.count + 1 } } ∧
      d'.length = n * (info.pixelDepth.val / 8) ∧
      ∀ j c, c < info.pixelDepth.val / 8 →
        d'[j * (info.pixelDepth.val / 8) + c]?
          = (file.rest.take (n * (info.pixelDepth.val / 8)))[j * (info.pixelDepth.val / 8) + swapCh c]? := by
  have h1 : info.type ≠ 1 := by rcases hty with h | h <;> rw [h] <;> decide
  have h23 : ¬ (info.type ≠ 2 ∧ info.type ≠ 3) := by
    rcases hty with h | h <;> rw [h] <;> decide
  obtain ⟨d', hd', hlen', hspec⟩ := loadImageData_rgb file
    { info with imageData := some ((List.range (n * (info.pixelDepth.val / 8))).map heap.junk) }
    ((List.range (n * (info.pixelDepth.val / 8))).map heap.junk) n hm htot hb rfl (by simp) hfile
  refine ⟨d', ?_, hlen', hspec⟩
  unfold tgaLoadChecks
  rw [if_neg (by simp [ferror, he]), if_neg h1, if_neg h23]
  simp only [htot, toSizeT_natCast _ (show n * (info.pixelDepth.val / 8) < 2 ^ 64 by omega),
    malloc_granted heap _ hg, hd']
  simp [ferror, he]

/-- The checks on a complete 24-bit file whose pixel bytes are `bgrBytes px`. -/
theorem tgaLoadChecks_rgb24 (file : FILE) (info : tgaInfo) (heap : Heap)
    (px : List (Byte × Byte × Byte))
    (he : file.err = false) (hty : info.type = 2) (hd : info.pixelDepth = 24)
    (hcount : (px.length : Int) = info.width * info.height)
    (hsmall : px.length * 3 < 2 ^ 31) (hg : heap.grants (px.length * 3) = true)
    (hrest : file.rest = bgrBytes px) :
    tgaLoadChecks file info heap
      = some { ret := some { info with imageData := some (rgbBytes px), status := tgaStatus.TGA_OK },
               file := some { file with rest := [] },
               heap := { heap with count := heap.count + 1 } } := by
  have hmode : info.pixelDepth.val / 8 = 3 := by rw [hd]; rfl
  have htot : totalBytes info = ((px.length * (info.pixelDepth.val / 8) : Nat) : Int) := by
    unfold totalBytes
    rw [hmode, Int.mul_comm info.height, ← hcount]
    rw [wrap32_of_range (px.length : Int) (by omega) (by omega)]
    rw [wrap32_of_range _ (by push_cast; omega) (by push_cast; omega)]
    push_cast
    ring
  obtain ⟨d', hd', hlen', hspec⟩ := tgaLoadChecks_ok_rgb file info heap px.length he (Or.inl hty)
    (by omega) htot (by rw [hmode]; exact hsmall) (by rw [hmode]; exact hg)
    (by rw [hmode, hrest, bgrBytes_length])
  rw [hmode] at hd' hlen' hspec
  have htake : List.take (px.length * 3) file.rest = bgrBytes px := by
    rw [hrest]; exact List.take_of_length_le (by rw [bgrBytes_length])
  have hdrop : List.drop (px.length * 3) file.rest = [] := by
    rw [hrest]; exact List.drop_of_length_le (by rw [bgrBytes_length])
  rw [htake] at hspec
  rw [hdrop] at hd'
  rw [hd', eq_rgbBytes px d' hspec]

/-- The checks end in `TGA_ERROR_MEMORY` when the pixel buffer is refused. -/
theorem tgaLoadChecks_memory (file : FILE) (info : tgaInfo) (heap : Heap)
    (he : file.err = false) (hty : info.type = 2 ∨ info.type = 3)
    (hg : heap.grants (toSizeT (totalBytes info)) = false) :
    tgaLoadChecks file info heap
      = some { ret := some { info with imageData := none, status := tgaStatus.TGA_ERROR_MEMORY },
               file := some file, heap := heap } := by
  have h1 : info.type ≠ 1 := by rcases hty with h | h <;> rw [h] <;> decide
  have h23 : ¬ (info.type ≠ 2 ∧ info.type ≠ 3) := by
    rcases hty with h | h <;> rw [h] <;> decide
  unfold tgaLoadChecks
  rw [if_neg (by simp [ferror, he]), if_neg h1, if_neg h23]
  simp [malloc, hg]

theorem hugeImage_total :
    toSizeT (wrap32 (wrap32 (32767 * 32767) * ((((24 : Byte).val / 8 : Nat) : Nat) : Int)))
      = 18446744072635613187 := by
  have h3 : ((((24 : Byte).val / 8 : Nat) : Nat) : Int) = 3 := by decide
  rw [h3]
  unfold toSizeT wrap32
  omega

/-! ## C1: round trip of a 24-bit image -/

/-- C1 (as amended): for every file that opens and consists of an 18-byte header
with type byte 2, depth byte 24 and width and height fields W and H, followed
by exactly the W*H (blue, green, red) triplets `px`, with `W*H*3 < 2^31` and a
heap that grants the `W*H*3` bytes, when `Silly.txt` can be created and is not
the file loaded, `tgaLoad` returns status `TGA_OK` and an `imageData` of
exactly `W*H*3` bytes, the triplets of `px` as (red, green, blue); the whole
file has been consumed and one block allocated. -/
theorem C1_rgb_round_trip (canCreate : String → Bool) (fs : String → Option DiskFile)
    (filename : String) (d : DiskFile) (u : tgaInfo) (heap : Heap)
    (px : List (Byte × Byte × Byte))
    (hsilly : canCreate "Silly.txt" = true) (hname : filename ≠ "Silly.txt")
    (hopen : fs filename = some d) (hlen : 18 ≤ d.bytes.length)
    (hty : d.bytes.getD 2 0 = 2) (hdepth : d.bytes.getD 16 0 = 24)
    (hpix : d.bytes.drop 18 = bgrBytes px)
    (hcount : (px.length : Int)
      = short16 (d.bytes.getD 12 0) (d.bytes.getD 13 0)
        * short16 (d.bytes.getD 14 0) (d.bytes.getD 15 0))
    (hsmall : px.length * 3 < 2 ^ 31) (hg : heap.grants (px.length * 3) = true) :
    ∃ info file, tgaLoad canCreate fs (some u) heap filename
        = some { ret := some info, file := some file,
                 heap := { heap with count := heap.count + 1 } } ∧
      info.status = tgaStatus.TGA_OK ∧
      info.imageData = some (rgbBytes px) ∧ (rgbBytes px).length = px.length * 3 ∧
      info.width = short16 (d.bytes.getD 12 0) (d.bytes.getD 13 0) ∧
      info.height = short16 (d.bytes.getD 14 0) (d.bytes.getD 15 0) ∧
      file.rest = [] := by
  rw [tgaLoad_created canCreate fs (some u) heap filename hsilly hname]
  rw [tgaLoadFrom_full_header fs filename d u heap hopen hlen]
  rw [tgaLoadChecks_rgb24 _ _ heap px rfl (by rw [formatSwitch_type]; exact hty)
    (by rw [formatSwitch_pixelDepth]; exact hdepth)
    (by rw [formatSwitch_width, formatSwitch_height]; exact hcount) hsmall hg hpix]
  exact ⟨_, _, rfl, rfl, rfl, rgbBytes_length px, by simp, by simp, rfl⟩

/-- C1 (as amended) at a 2 x 1 image with the pixels (1, 2, 3) and (4, 5, 6). -/
theorem C1_rgb_round_trip_witness :
    ∃ info file,
      tgaLoad sampleDir
          (sampleFs (sampleHeader 2 24 2 0 1 0 ++ bgrBytes [(1, 2, 3), (4, 5, 6)]) StreamEnd.eof)
          (some sampleInfo) sampleHeap "rgb.tga"
        = some { ret := some info, file := some file,
                 heap := { sampleHeap with count := sampleHeap.count + 1 } } ∧
      info.status = tgaStatus.TGA_OK ∧
      info.imageData = some (rgbBytes [(1, 2, 3), (4, 5, 6)]) ∧
      (rgbBytes [(1, 2, 3), (4, 5, 6)]).length
        = [((1 : Byte), (2 : Byte), (3 : Byte)), (4, 5, 6)].length * 3 ∧
      info.width = 2 ∧ info.height = 1 ∧ file.rest = [] :=
  C1_rgb_round_trip sampleDir
    (sampleFs (sampleHeader 2 24 2 0 1 0 ++ bgrBytes [(1, 2, 3), (4, 5, 6)]) StreamEnd.eof)
    "rgb.tga" ⟨sampleHeader 2 24 2 0 1 0 ++ bgrBytes [(1, 2, 3), (4, 5, 6)], StreamEnd.eof⟩
    sampleInfo sampleHeap [(1, 2, 3), (4, 5, 6)] rfl (by decide) rfl (by decide) (by decide) (by decide)
    (by decide) (by decide) (by decide) (by decide)

/-- C1 fails as stated: for W = H = 32767 (both fit the signed 16-bit fields)
and a file that holds the header and all W*H black triplets, the `int` product
`height * width * 3` wraps to a negative value, the request converted to
`size_t` is refused by a heap that grants everything below 4 GiB, and the
status is `TGA_ERROR_MEMORY`, not `TGA_OK`. -/
theorem C1_counterexample_overflow :
    ((tgaLoad sampleDir
        (sampleFs (sampleHeader 2 24 255 127 255 127 ++ bgrBytes hugeImage) StreamEnd.eof)
        (some sampleInfo) sampleHeap "big.tga").bind (fun r => r.ret)).map (fun i => i.status)
      = some tgaStatus.TGA_ERROR_MEMORY := by
  have hlen : 18 ≤ (sampleHeader 2 24 255 127 255 127 ++ bgrBytes hugeImage).length := by
    have h18 : (sampleHeader 2 24 255 127 255 127).length = 18 := rfl
    rw [List.length_append, h18]
    exact Nat.le_add_right 18 _
  have hW : short16 255 127 = 32767 := by decide
  rw [tgaLoad_created sampleDir _ _ _ "big.tga" rfl (by decide)]
  rw [tgaLoadFrom_full_header _ "big.tga" ⟨sampleHeader 2 24 255 127 255 127
          ++ bgrBytes hugeImage, StreamEnd.eof⟩ _ _ rfl hlen]
  rw [tgaLoadChecks_memory _ _ _ rfl (Or.inl (by
    rw [formatSwitch_type]
    simp only [sampleHeader, List.cons_append, List.getD_cons_succ, List.getD_cons_zero]))]
  · rfl
  · unfold totalBytes
    simp only [formatSwitch_height, formatSwitch_width, formatSwitch_pixelDepth]
    simp only [sampleHeader, List.cons_append, List.getD_cons_succ, List.getD_cons_zero, hW]
    rw [hugeImage_total]
    decide

/-! ## C3: the header parse -/

/-- C3: for every file that opens and holds at least 18 bytes, the header parse
of `tgaLoad` sets `type` to byte 2, `width` and `height` to the little-endian
signed 16-bit values of bytes 12-13 and 14-15 and `pixelDepth` to byte 16, and
leaves the stream at offset 18 without a read error; a file that differs only
in the bytes 0, 1, 3-11 and 17 yields the same result of `tgaLoad`. -/
theorem C3_header_parse (canCreate : String → Bool) (fs : String → Option DiskFile)
    (filename : String) (d : DiskFile)
    (u : tgaInfo) (heap : Heap) (hopen : fs filename = some d) (hlen : 18 ≤ d.bytes.length) :
    (∃ file, fopen fs filename = some file ∧
      (_tgaLoadHeader file u).2.type = d.bytes.getD 2 0 ∧
      (_tgaLoadHeader file u).2.width = short16 (d.bytes.getD 12 0) (d.bytes.getD 13 0) ∧
      (_tgaLoadHeader file u).2.height = short16 (d.bytes.getD 14 0) (d.bytes.getD 15 0) ∧
      (_tgaLoadHeader file u).2.pixelDepth = d.bytes.getD 16 0 ∧
      (_tgaLoadHeader file u).1.rest = d.bytes.drop 18 ∧
      ferror (_tgaLoadHeader file u).1 = false) ∧
    (∀ (fs' : String → Option DiskFile) (d' : DiskFile), fs' filename = some d' →
      d'.tail = d.tail → d'.bytes.length = d.bytes.length →
      (∀ i, (i = 2 ∨ (12 ≤ i ∧ i ≤ 16) ∨ 18 ≤ i) → d'.bytes[i]? = d.bytes[i]?) →
      tgaLoad canCreate fs' (some u) heap filename
        = tgaLoad canCreate fs (some u) heap filename) := by
  constructor
  · refine ⟨⟨d.bytes, d.tail, false, false⟩, by simp [fopen, hopen], ?_⟩
    rw [loadHeader_full _ hlen]
    simp [ferror]
  · intro fs' d' hopen' htl hlen' hag
    cases hs : canCreate "Silly.txt" with
    | false =>
      rw [tgaLoad_not_created canCreate fs' _ heap filename hs,
        tgaLoad_not_created canCreate fs _ heap filename hs]
    | true =>
      by_cases hname : filename = "Silly.txt"
      · subst hname
        rw [tgaLoad_silly canCreate fs' _ heap hs, tgaLoad_silly canCreate fs _ heap hs]
      · rw [tgaLoad_created canCreate fs' _ heap filename hs hname,
          tgaLoad_created canCreate fs _ heap filename hs hname]
        rw [tgaLoadFrom_full_header fs' filename d' u heap hopen' (by omega),
          tgaLoadFrom_full_header fs filename d u heap hopen hlen]
        rw [drop_eq_of_agree d.bytes d'.bytes (fun i hi => hag i (by omega)), htl,
          getD_eq_of_agree _ _ 2 (hag 2 (by omega)), getD_eq_of_agree _ _ 12 (hag 12 (by omega)),
          getD_eq_of_agree _ _ 13 (hag 13 (by omega)), getD_eq_of_agree _ _ 14 (hag 14 (by omega)),
          getD_eq_of_agree _ _ 15 (hag 15 (by omega)), getD_eq_of_agree _ _ 16 (hag 16 (by omega))]

/-- C3 at a 21-byte file: type 2, width bytes (2, 1) give 258, height bytes
(255, 255) give -1, depth 24, and the three pixel bytes are left in the stream. -/
theorem C3_header_parse_witness :
    (∃ file, fopen (sampleFs (sampleHeader 2 24 2 1 255 255 ++ [1, 2, 3]) StreamEnd.eof) "a.tga"
        = some file ∧
      (_tgaLoadHeader file sampleInfo).2.type = 2 ∧
      (_tgaLoadHeader file sampleInfo).2.width = 258 ∧
      (_tgaLoadHeader file sampleInfo).2.height = -1 ∧
      (_tgaLoadHeader file sampleInfo).2.pixelDepth = 24 ∧
      (_tgaLoadHeader file sampleInfo).1.rest = [1, 2, 3] ∧
      ferror (_tgaLoadHeader file sampleInfo).1 = false) ∧
    (∀ (fs' : String → Option DiskFile) (d' : DiskFile), fs' "a.tga" = some d' →
      d'.tail = StreamEnd.eof → d'.bytes.length = 21 →
      (∀ i, (i = 2 ∨ (12 ≤ i ∧ i ≤ 16) ∨ 18 ≤ i) →
        d'.bytes[i]? = (sampleHeader 2 24 2 1 255 255 ++ [1, 2, 3])[i]?) →
      tgaLoad sampleDir fs' (some sampleInfo) sampleHeap "a.tga"
        = tgaLoad sampleDir (sampleFs (sampleHeader 2 24 2 1 255 255 ++ [1, 2, 3]) StreamEnd.eof)
            (some sampleInfo) sampleHeap "a.tga") :=
  C3_header_parse sampleDir (sampleFs (sampleHeader 2 24 2 1 255 255 ++ [1, 2, 3]) StreamEnd.eof) "a.tga"
    ⟨sampleHeader 2 24 2 1 255 255 ++ [1, 2, 3], StreamEnd.eof⟩ sampleInfo sampleHeap rfl
    (by decide)

/-! ## C4: rejected image types -/

/-- Away from the diagnostic file the type check works: when `Silly.txt` can be created and
another file is loaded that opens and holds a complete 18-byte header whose type byte is
neither 2 nor 3, `tgaLoad` returns `TGA_ERROR_INDEXED_COLOR` when the type byte is 1 and
`TGA_ERROR_COMPRESSED_FILE` otherwise, whatever the other bytes are; the heap is returned
untouched (no pixel buffer was allocated), `imageData` is what the fresh descriptor held and
the stream is still at offset 18 (no pixel byte was read). -/
theorem tgaLoad_type_rejected (canCreate : String → Bool) (fs : String → Option DiskFile)
    (filename : String) (d : DiskFile) (u : tgaInfo) (heap : Heap)
    (hsilly : canCreate "Silly.txt" = true) (hname : filename ≠ "Silly.txt")
    (hopen : fs filename = some d) (hlen : 18 ≤ d.bytes.length)
    (hty : d.bytes.getD 2 0 ≠ 2 ∧ d.bytes.getD 2 0 ≠ 3) :
    ∃ info file, tgaLoad canCreate fs (some u) heap filename
        = some { ret := some info, file := some file, heap := heap } ∧
      info.status = (if d.bytes.getD 2 0 = 1 then tgaStatus.TGA_ERROR_INDEXED_COLOR
                     else tgaStatus.TGA_ERROR_COMPRESSED_FILE) ∧
      info.imageData = u.imageData ∧ file.rest = d.bytes.drop 18 := by
  rw [tgaLoad_created canCreate fs (some u) heap filename hsilly hname]
  rw [tgaLoadFrom_full_header fs filename d u heap hopen hlen]
  by_cases h1 : d.bytes.getD 2 0 = 1
  · rw [tgaLoadChecks_indexed _ _ _ rfl (by rw [formatSwitch_type]; exact h1)]
    exact ⟨_, _, rfl, by rw [if_pos h1], by rw [formatSwitch_imageData], rfl⟩
  · rw [tgaLoadChecks_compressed _ _ _ rfl (by rw [formatSwitch_type]; exact h1)
      (by rw [formatSwitch_type]; exact hty.1) (by rw [formatSwitch_type]; exact hty.2)]
    exact ⟨_, _, rfl, by rw [if_neg h1], by rw [formatSwitch_imageData], rfl⟩

/-- C4 (the code at the failing input): an RLE file (type byte 10) of 2 x 1
pixels opens and its header is read without a read error, and `tgaLoad`
answers `TGA_ERROR_COMPRESSED_FILE` where `Silly.txt` can be created; in a
working directory where `Silly.txt` cannot be created the same call has no
defined result: the unchecked `fopen` of line 137 yields `NULL`, which line
138 hands to `fwrite` before the image file is opened. -/
theorem C4_unchecked_silly_file :
    tgaLoad lockedDir (sampleFs (sampleHeader 10 24 2 0 1 0 ++ [1, 2, 3, 4, 5, 6]) StreamEnd.eof)
        (some sampleInfo) sampleHeap "rle.tga" = none ∧
    ((tgaLoad sampleDir (sampleFs (sampleHeader 10 24 2 0 1 0 ++ [1, 2, 3, 4, 5, 6]) StreamEnd.eof)
        (some sampleInfo) sampleHeap "rle.tga").bind (fun r => r.ret)).map (fun i => i.status)
      = some tgaStatus.TGA_ERROR_COMPRESSED_FILE ∧
    ((fopen (sampleFs (sampleHeader 10 24 2 0 1 0 ++ [1, 2, 3, 4, 5, 6]) StreamEnd.eof)
        "rle.tga").map (fun f => ((_tgaLoadHeader f sampleInfo).2.type,
          ferror (_tgaLoadHeader f sampleInfo).1))) = some (10, false) :=
  ⟨rfl, by decide, by decide⟩

/-! ## C5: truncated files -/

/-- C5 (the code at the failing input): a file with a complete header (type 2,
1 x 1 pixel, depth 24) and no pixel byte at all, ending in plain end-of-file,
comes back with status `TGA_OK`; the three bytes of `imageData` are whatever
the fresh buffer held (170, 171, 172 here), with bytes 0 and 2 exchanged. -/
theorem C5_truncated_file_ok :
    ((tgaLoad sampleDir (sampleFs (sampleHeader 2 24 1 0 1 0) StreamEnd.eof) (some sampleInfo)
        sampleHeap "short.tga").bind (fun r => r.ret)).map (fun i => (i.status, i.imageData))
      = some (tgaStatus.TGA_OK, some [172, 171, 170]) := by
  decide

/-! ## C8: a file that cannot be opened -/

/-- Away from the diagnostic file the open check works: when `Silly.txt` can be created and
`fopen` fails on another file (it is called once the descriptor `u` is allocated), `tgaLoad`
returns that descriptor with only `status` assigned, namely `TGA_ERROR_FILE_OPEN`: no header
field is parsed, no stream exists and the heap is untouched (no pixel buffer is allocated). -/
theorem tgaLoad_open_failure (canCreate : String → Bool) (fs : String → Option DiskFile)
    (filename : String) (u : tgaInfo) (heap : Heap)
    (hsilly : canCreate "Silly.txt" = true) (hname : filename ≠ "Silly.txt")
    (hopen : fs filename = none) :
    tgaLoad canCreate fs (some u) heap filename
      = some { ret := some { u with status := tgaStatus.TGA_ERROR_FILE_OPEN },
               file := none, heap := heap } := by
  rw [tgaLoad_created canCreate fs (some u) heap filename hsilly hname]
  simp [tgaLoadFrom, fopen, hopen]

/-- C8 (the code at the failing input): the file `missing.tga` does not exist,
so opening it for reading fails, and `tgaLoad` answers `TGA_ERROR_FILE_OPEN`
where `Silly.txt` can be created; in a working directory where `Silly.txt`
cannot be created the same call has no defined result: the unchecked `fopen`
of line 137 yields `NULL`, which line 138 hands to `fwrite` before the
descriptor is allocated and before the checked `fopen` of line 147. -/
theorem C8_unchecked_silly_file :
    tgaLoad lockedDir (fun _ => none) (some sampleInfo) sampleHeap "missing.tga" = none ∧
    ((tgaLoad sampleDir (fun _ => none) (some sampleInfo) sampleHeap "missing.tga").bind
        (fun r => r.ret)).map (fun i => i.status) = some tgaStatus.TGA_ERROR_FILE_OPEN ∧
    fopen (fun _ => none) "missing.tga" = none :=
  ⟨rfl, by decide, rfl⟩

/-! ## Decoding of complete and of truncated files -/

theorem short16_range (lo hi : Byte) : -32768 ≤ short16 lo hi ∧ short16 lo hi ≤ 32767 := by
  have h1 := lo.isLt
  have h2 := hi.isLt
  unfold short16
  split_ifs <;> omega

/-- The pixel read for `mode >= 3` on any stream: the buffer receives what `fread` delivers
and then has channels 0 and 2 of every pixel exchanged. -/
theorem loadImageData_rgb_any (file : FILE) (info : tgaInfo) (buf : List Byte) (n : Nat)
    (hm : 3 ≤ info.pixelDepth.val / 8)
    (htot : totalBytes info = ((n * (info.pixelDepth.val / 8) : Nat) : Int))
    (hb : n * (info.pixelDepth.val / 8) < 2 ^ 31)
    (hbuf : info.imageData = some buf) (hlen : buf.length = n * (info.pixelDepth.val / 8)) :
    ∃ d', _tgaLoadImageData file info
        = some ((fread file (n * (info.pixelDepth.val / 8))).2,
                { info with imageData := some d' }) ∧
      d'.length = n * (info.pixelDepth.val / 8) ∧
      ∀ j c, c < info.pixelDepth.val / 8 →
        d'[j * (info.pixelDepth.val / 8) + c]?
          = ((fread file (n * (info.pixelDepth.val / 8))).1
              ++ buf.drop (fread file (n * (info.pixelDepth.val / 8))).1.length)[
                j * (info.pixelDepth.val / 8) + swapCh c]? := by
  generalize hmode : info.pixelDepth.val / 8 = mode at *
  have hgot : (fread file (n * mode)).1.length ≤ n * mode := by
    simp only [fread, List.length_take]; omega
  have hmerged : ((fread file (n * mode)).1 ++ buf.drop (fread file (n * mode)).1.length).length
      = n * mode := by
    rw [List.length_append, List.length_drop]; omega
  obtain ⟨d', hd', hlen', hspec⟩ := swapLoop_spec mode n hm hb n 0 (n * mode)
    ((fread file (n * mode)).1 ++ buf.drop (fread file (n * mode)).1.length) (by omega)
    (by calc n = n * 1 := (Nat.mul_one n).symm
          _ ≤ n * mode := Nat.mul_le_mul_left n (by omega)) hmerged
  refine ⟨d', ?_, by omega, ?_⟩
  · unfold _tgaLoadImageData
    simp only [hbuf, htot, hmode, toSizeT_natCast (n * mode) (by omega), Int.toNat_ofNat]
    rw [if_neg (by omega), if_pos hm]
    rw [Nat.zero_mul] at hd'
    rw [hd']
    rfl
  · intro j c hc
    rw [hspec j c hc, if_pos (Nat.zero_le _)]

/-- The pixel read for `mode < 3` on any stream: the buffer receives what `fread` delivers. -/
theorem loadImageData_plain_any (file : FILE) (info : tgaInfo) (buf : List Byte) (N : Nat)
    (hm : info.pixelDepth.val / 8 < 3)
    (htot : totalBytes info = (N : Int)) (hb : N < 2 ^ 31)
    (hbuf : info.imageData = some buf) (hlen : buf.length = N) :
    _tgaLoadImageData file info
      = some ((fread file N).2,
              { info with imageData := some ((fread file N).1 ++ buf.drop (fread file N).1.length) }) := by
  have hgot : (fread file N).1.length ≤ N := by
    simp only [fread, List.length_take]; omega
  unfold _tgaLoadImageData
  simp only [hbuf, htot, toSizeT_natCast N (by omega)]
  rw [if_neg (by omega), if_neg (by omega)]

/-- The result of the checks for a type 2 or 3 header, a byte count `N` that does not wrap and
a granted buffer: the status is `TGA_ERROR_READING_FILE` exactly when the device fails before
`N` bytes are delivered and `TGA_OK` otherwise, also when the file simply ends early; the
buffer holds the bytes delivered (then fresh memory), with channels 0 and 2 of every pixel
exchanged when `mode >= 3`. -/
theorem tgaLoadChecks_pixels (file : FILE) (info : tgaInfo) (heap : Heap) (N : Nat)
    (he : file.err = false) (hty : info.type = 2 ∨ info.type = 3)
    (htot : totalBytes info = (N : Int)) (hb : N < 2 ^ 31)
    (hmul : 3 ≤ info.pixelDepth.val / 8 → ∃ n, N = n * (info.pixelDepth.val / 8))
    (hg : heap.grants N = true) :
    ∃ d', tgaLoadChecks file info heap
        = some { ret := some { info with
                   imageData := some d'
                   status := (if file.rest.length < N ∧ file.tail = StreamEnd.ioError
                     then tgaStatus.TGA_ERROR_READING_FILE else tgaStatus.TGA_OK) },
                 file := some (fread file N).2,
                 heap := { heap with count := heap.count + 1 } } ∧
      d'.length = N ∧
      (3 ≤ info.pixelDepth.val / 8 → ∀ j c, c < info.pixelDepth.val / 8 →
        d'[j * (info.pixelDepth.val / 8) + c]?
          = (mergedBuffer file heap N)[j * (info.pixelDepth.val / 8) + swapCh c]?) ∧
      (info.pixelDepth.val / 8 < 3 → d' = mergedBuffer file heap N) := by
  have h1 : info.type ≠ 1 := by rcases hty with h | h <;> rw [h] <;> decide
  have h23 : ¬ (info.type ≠ 2 ∧ info.type ≠ 3) := by
    rcases hty with h | h <;> rw [h] <;> decide
  have herr : ferror (fread file N).2
      = decide (file.rest.length < N ∧ file.tail = StreamEnd.ioError) := by
    simp [ferror, fread, he]
  have hgot : (fread file N).1.length ≤ N := by
    simp only [fread, List.length_take]; omega
  have hmerged : (mergedBuffer file heap N).length = N := by
    unfold mergedBuffer
    rw [List.length_append, List.length_drop, List.length_map, List.length_range]; omega
  have hload : ∃ d', _tgaLoadImageData file
      { info with imageData := some ((List.range N).map heap.junk) }
        = some ((fread file N).2, { info with imageData := some d' }) ∧ d'.length = N ∧
      (3 ≤ info.pixelDepth.val / 8 → ∀ j c, c < info.pixelDepth.val / 8 →
        d'[j * (info.pixelDepth.val / 8) + c]?
          = (mergedBuffer file heap N)[j * (info.pixelDepth.val / 8) + swapCh c]?) ∧
      (info.pixelDepth.val / 8 < 3 → d' = mergedBuffer file heap N) := by
    by_cases hm : 3 ≤ info.pixelDepth.val / 8
    · obtain ⟨n, rfl⟩ := hmul hm
      obtain ⟨d', hd', hl', hsp⟩ := loadImageData_rgb_any file
        { info with imageData := some ((List.range (n * (info.pixelDepth.val / 8))).map heap.junk) }
        ((List.range (n * (info.pixelDepth.val / 8))).map heap.junk) n hm htot hb rfl (by simp)
      exact ⟨d', hd', hl', fun _ => hsp, fun h => absurd hm (by omega)⟩
    · exact ⟨_, loadImageData_plain_any file
        { info with imageData := some ((List.range N).map heap.junk) }
        ((List.range N).map heap.junk) N (by simp; omega) htot hb rfl (by simp), hmerged,
        fun h => absurd h hm, fun _ => rfl⟩
  obtain ⟨d', hd', hl', hsp, hpl⟩ := hload
  refine ⟨d', ?_, hl', hsp, hpl⟩
  unfold tgaLoadChecks
  rw [if_neg (by simp [ferror, he]), if_neg h1, if_neg h23]
  simp only [htot, toSizeT_natCast N (show N < 2 ^ 64 by omega), malloc_granted heap _ hg, hd']
  by_cases hc : file.rest.length < N ∧ file.tail = StreamEnd.ioError
  · rw [if_pos (by rw [herr]; simpa using hc), if_pos hc]
  · rw [if_neg (by rw [herr]; simpa using hc), if_neg hc]

/-- The byte count of a header whose fields multiply to `n` pixels without wrapping. -/
theorem totalBytes_header (u : tgaInfo) (bytes : List Byte) (n : Nat)
    (hn : (n : Int) = short16 (bytes.getD 14 0) (bytes.getD 15 0)
                      * short16 (bytes.getD 12 0) (bytes.getD 13 0))
    (hb : n * ((bytes.getD 16 0).val / 8) < 2 ^ 31) :
    totalBytes (formatSwitch { u with type := bytes.getD 2 0,
                                      width := short16 (bytes.getD 12 0) (bytes.getD 13 0),
                                      height := short16 (bytes.getD 14 0) (bytes.getD 15 0),
                                      pixelDepth := bytes.getD 16 0 })
      = ((n * ((bytes.getD 16 0).val / 8) : Nat) : Int) := by
  have hr1 := short16_range (bytes.getD 14 0) (bytes.getD 15 0)
  have hr2 := short16_range (bytes.getD 12 0) (bytes.getD 13 0)
  have hn30 : (n : Int) ≤ 2 ^ 30 := by
    rw [hn]
    have : short16 (bytes.getD 14 0) (bytes.getD 15 0)
        * short16 (bytes.getD 12 0) (bytes.getD 13 0) ≤ 32768 * 32768 := by
      nlinarith [hr1.1, hr1.2, hr2.1, hr2.2]
    omega
  unfold totalBytes
  rw [formatSwitch_height, formatSwitch_width, formatSwitch_pixelDepth]
  rw [← hn, wrap32_of_range (n : Int) (by omega) (by omega)]
  have hcast : (n : Int) * (((bytes.getD 16 0).val / 8 : Nat) : Int)
      = ((n * ((bytes.getD 16 0).val / 8) : Nat) : Int) := by push_cast; rfl
  rw [hcast]
  exact wrap32_of_range _ (by omega) (by omega)

/-- A file that ends early is accepted: with a complete header of type 2 or 3, `n` pixels
whose byte count `n * (pixelDepth/8)` does not wrap, a granted buffer and plain end-of-file
wherever the pixel data stops, `tgaLoad` returns `TGA_OK` (`Silly.txt` can be created and is
not the file loaded). -/
theorem tgaLoad_truncated_ok (canCreate : String → Bool) (fs : String → Option DiskFile)
    (filename : String) (d : DiskFile) (u : tgaInfo) (heap : Heap) (n : Nat)
    (hsilly : canCreate "Silly.txt" = true) (hname : filename ≠ "Silly.txt")
    (hopen : fs filename = some d) (hlen : 18 ≤ d.bytes.length)
    (hty : d.bytes.getD 2 0 = 2 ∨ d.bytes.getD 2 0 = 3)
    (hn : (n : Int) = short16 (d.bytes.getD 14 0) (d.bytes.getD 15 0)
                      * short16 (d.bytes.getD 12 0) (d.bytes.getD 13 0))
    (hb : n * ((d.bytes.getD 16 0).val / 8) < 2 ^ 31)
    (hg : heap.grants (n * ((d.bytes.getD 16 0).val / 8)) = true)
    (heof : d.tail = StreamEnd.eof) :
    ∃ r i, tgaLoad canCreate fs (some u) heap filename = some r ∧ r.ret = some i ∧
      i.status = tgaStatus.TGA_OK := by
  rw [tgaLoad_created canCreate fs (some u) heap filename hsilly hname]
  rw [tgaLoadFrom_full_header fs filename d u heap hopen hlen]
  obtain ⟨d', hr, -, -, -⟩ := tgaLoadChecks_pixels
    ⟨d.bytes.drop 18, d.tail, false, false⟩
    (formatSwitch { u with type := d.bytes.getD 2 0,
                           width := short16 (d.bytes.getD 12 0) (d.bytes.getD 13 0),
                           height := short16 (d.bytes.getD 14 0) (d.bytes.getD 15 0),
                           pixelDepth := d.bytes.getD 16 0 })
    heap (n * ((d.bytes.getD 16 0).val / 8)) rfl
    (by rw [formatSwitch_type]; exact hty) (totalBytes_header u d.bytes n hn hb)
    hb (fun _ => ⟨n, by rw [formatSwitch_pixelDepth]⟩) hg
  rw [hr]
  exact ⟨_, _, rfl, rfl, by simp [heof]⟩

/-- On a complete file the decoded buffer is the pixel data with bytes 0 and 2 of every pixel
exchanged when `mode >= 3`, and the pixel data itself otherwise: with a complete header of
type 2 or 3, `n` pixels whose byte count `n * mode` does not wrap, a granted buffer and at
least `n * mode` bytes after the header, `tgaLoad` returns `TGA_OK` and byte `k` of
`imageData` is byte `k + 2`, `k - 2` or `k` of the pixel data according to `k mod mode`
(`Silly.txt` can be created and is not the file loaded). -/
theorem tgaLoad_complete_file (canCreate : String → Bool) (fs : String → Option DiskFile)
    (filename : String) (d : DiskFile) (u : tgaInfo) (heap : Heap) (n : Nat)
    (hsilly : canCreate "Silly.txt" = true) (hname : filename ≠ "Silly.txt")
    (hopen : fs filename = some d) (hlen : 18 ≤ d.bytes.length)
    (hty : d.bytes.getD 2 0 = 2 ∨ d.bytes.getD 2 0 = 3)
    (hn : (n : Int) = short16 (d.bytes.getD 14 0) (d.bytes.getD 15 0)
                      * short16 (d.bytes.getD 12 0) (d.bytes.getD 13 0))
    (hb : n * ((d.bytes.getD 16 0).val / 8) < 2 ^ 31)
    (hg : heap.grants (n * ((d.bytes.getD 16 0).val / 8)) = true)
    (hfile : n * ((d.bytes.getD 16 0).val / 8) ≤ (d.bytes.drop 18).length) :
    ∃ r i buf, tgaLoad canCreate fs (some u) heap filename = some r ∧ r.ret = some i ∧
      i.status = tgaStatus.TGA_OK ∧ i.imageData = some buf ∧
      buf.length = n * ((d.bytes.getD 16 0).val / 8) ∧
      ∀ k, k < n * ((d.bytes.getD 16 0).val / 8) →
        buf[k]? =
          if 3 ≤ (d.bytes.getD 16 0).val / 8 then
            (if k % ((d.bytes.getD 16 0).val / 8) = 0 then (d.bytes.drop 18)[k + 2]?
             else if k % ((d.bytes.getD 16 0).val / 8) = 2 then (d.bytes.drop 18)[k - 2]?
             else (d.bytes.drop 18)[k]?)
          else (d.bytes.drop 18)[k]? := by
  rw [tgaLoad_created canCreate fs (some u) heap filename hsilly hname]
  rw [tgaLoadFrom_full_header fs filename d u heap hopen hlen]
  obtain ⟨d', hr, hl, hsp, hpl⟩ := tgaLoadChecks_pixels
    ⟨d.bytes.drop 18, d.tail, false, false⟩
    (formatSwitch { u with type := d.bytes.getD 2 0,
                           width := short16 (d.bytes.getD 12 0) (d.bytes.getD 13 0),
                           height := short16 (d.bytes.getD 14 0) (d.bytes.getD 15 0),
                           pixelDepth := d.bytes.getD 16 0 })
    heap (n * ((d.bytes.getD 16 0).val / 8)) rfl
    (by rw [formatSwitch_type]; exact hty) (totalBytes_header u d.bytes n hn hb)
    hb (fun _ => ⟨n, by rw [formatSwitch_pixelDepth]⟩) hg
  rw [formatSwitch_pixelDepth] at hsp hpl
  simp only [] at hsp hpl
  generalize hmode : (d.bytes.getD 16 0).val / 8 = mode at *
  generalize hrest : d.bytes.drop 18 = rest at *
  have hmb : mergedBuffer ⟨rest, d.tail, false, false⟩ heap (n * mode) = rest.take (n * mode) := by
    unfold mergedBuffer
    simp only [fread]
    rw [List.drop_of_length_le (by simp [List.length_take]; omega), List.append_nil]
  have htake : ∀ k, k < n * mode → (rest.take (n * mode))[k]? = rest[k]? := by
    intro k hk
    rw [List.getElem?_take]
    simp [hk]
  rw [hr]
  refine ⟨_, _, d', rfl, rfl, by simp; omega, rfl, hl, ?_⟩
  intro k hk
  by_cases hm : 3 ≤ mode
  · rw [if_pos hm]
    have hk' : k = (k / mode) * mode + k % mode := by
      rw [Nat.mul_comm]; exact (Nat.div_add_mod k mode).symm
    have hc : k % mode < mode := Nat.mod_lt _ (by omega)
    have hq : k / mode < n := by
      apply Nat.div_lt_of_lt_mul
      rw [Nat.mul_comm]; exact hk
    have hq' : (k / mode) * mode + mode ≤ n * mode := by
      have := Nat.mul_le_mul_right mode (show k / mode + 1 ≤ n by omega)
      rw [Nat.add_mul, Nat.one_mul] at this
      exact this
    have hsp' := hsp hm (k / mode) (k % mode) hc
    rw [← hk', hmb] at hsp'
    rw [hsp']
    unfold swapCh
    by_cases c0 : k % mode = 0
    · rw [if_pos c0, if_pos c0, htake _ (by omega)]
      congr 1
      omega
    · rw [if_neg c0, if_neg c0]
      by_cases c2 : k % mode = 2
      · rw [if_pos c2, if_pos c2, htake _ (by omega)]
        congr 1
        omega
      · rw [if_neg c2, if_neg c2, htake _ (by omega)]
        congr 1
        omega
  · rw [if_neg hm, hpl (by omega), hmb, htake k hk]

/-! ## C2: the channel exchange on decoded files -/

/-- C2 (the code at the failing input): a 2 x 1 file of type 2 and depth 24
that holds only three of its six pixel bytes is decoded with status `TGA_OK`;
bytes 3-5 of `imageData` are the contents of the fresh buffer (173, 174, 175,
with 173 and 175 exchanged), not file bytes: the file has no byte 5 after the
header. -/
theorem C2_truncated_pixels :
    ((tgaLoad sampleDir (sampleFs (sampleHeader 2 24 2 0 1 0 ++ [1, 2, 3]) StreamEnd.eof)
        (some sampleInfo) sampleHeap "cut.tga").bind (fun r => r.ret)).map (fun i => (i.status, i.imageData))
      = some (tgaStatus.TGA_OK, some [3, 2, 1, 175, 174, 173]) ∧
    ([1, 2, 3] : List Byte)[5]? = none := by
  decide

/-! ## C6: accepted types and depths -/

theorem loadHeader_type (b0 b1 t : Byte) (rest : List Byte) (tl : StreamEnd) (e a : Bool)
    (u : tgaInfo) : (_tgaLoadHeader ⟨b0 :: b1 :: t :: rest, tl, e, a⟩ u).2.type = t := by
  simp [_tgaLoadHeader, fread_one, storeByte]

theorem loadHeader_imageData (file : FILE) (u : tgaInfo) :
    (_tgaLoadHeader file u).2.imageData = u.imageData := by
  simp [_tgaLoadHeader]

/-- With a type other than 2 and 3 the checks return a status other than `TGA_OK`. -/
theorem tgaLoadChecks_bad_type (file : FILE) (info : tgaInfo) (heap : Heap)
    (h2 : info.type ≠ 2) (h3 : info.type ≠ 3) :
    ∃ r i, tgaLoadChecks file info heap = some r ∧ r.ret = some i ∧
      i.status ≠ tgaStatus.TGA_OK := by
  unfold tgaLoadChecks
  by_cases he : ferror file = true
  · rw [if_pos he]; exact ⟨_, _, rfl, rfl, by simp⟩
  · rw [if_neg he]
    by_cases h1 : info.type = 1
    · rw [if_pos h1]; exact ⟨_, _, rfl, rfl, by simp⟩
    · rw [if_neg h1, if_pos ⟨h2, h3⟩]; exact ⟨_, _, rfl, rfl, by simp⟩

/-- C6 (as amended): `tgaLoad` returns `TGA_OK` only for files whose image type
is 2 or 3: for every file that opens and has a type byte (offset 2) other than
2 and 3, when `Silly.txt` can be created and is not the file loaded, a
descriptor is returned and its status is not `TGA_OK`. The pixel depth is not
checked. -/
theorem C6_ok_needs_type_2_or_3 (canCreate : String → Bool) (fs : String → Option DiskFile)
    (filename : String) (d : DiskFile) (u : tgaInfo) (heap : Heap) (t : Byte)
    (hsilly : canCreate "Silly.txt" = true) (hname : filename ≠ "Silly.txt")
    (hopen : fs filename = some d) (ht : d.bytes[2]? = some t) (h2 : t ≠ 2) (h3 : t ≠ 3) :
    ∃ r info, tgaLoad canCreate fs (some u) heap filename = some r ∧ r.ret = some info ∧
      info.status ≠ tgaStatus.TGA_OK := by
  rw [tgaLoad_created canCreate fs (some u) heap filename hsilly hname]
  obtain ⟨bytes, tl⟩ := d
  rcases bytes with _ | ⟨b0, _ | ⟨b1, _ | ⟨t', rest⟩⟩⟩
  · simp at ht
  · simp at ht
  · simp at ht
  · simp at ht
    subst ht
    simp only [tgaLoadFrom, fopen, hopen, Option.map_some']
    exact tgaLoadChecks_bad_type _ _ heap (by rw [loadHeader_type]; exact h2)
      (by rw [loadHeader_type]; exact h3)

/-- C6 (as amended) at a file of type 10. -/
theorem C6_ok_needs_type_2_or_3_witness :
    ∃ r info, tgaLoad sampleDir (sampleFs (sampleHeader 10 24 1 0 1 0 ++ [1, 2, 3]) StreamEnd.eof)
        (some sampleInfo) sampleHeap "rle.tga" = some r ∧ r.ret = some info ∧
      info.status ≠ tgaStatus.TGA_OK :=
  C6_ok_needs_type_2_or_3 sampleDir
    (sampleFs (sampleHeader 10 24 1 0 1 0 ++ [1, 2, 3]) StreamEnd.eof)
    "rle.tga" ⟨sampleHeader 10 24 1 0 1 0 ++ [1, 2, 3], StreamEnd.eof⟩ sampleInfo sampleHeap 10
    rfl (by decide) rfl (by decide) (by decide) (by decide)

/-- C6 fails as stated: a 1 x 1 file of type 2 with pixel depth 16 and its two
pixel bytes is decoded with status `TGA_OK`. -/
theorem C6_depth16_accepted :
    ((tgaLoad sampleDir (sampleFs (sampleHeader 2 16 1 0 1 0 ++ [1, 2]) StreamEnd.eof)
        (some sampleInfo) sampleHeap "hi.tga").bind (fun r => r.ret)).map (fun i => (i.status, i.pixelDepth, i.type))
      = some (tgaStatus.TGA_OK, 16, 2) := by
  decide

/-! ## C7: the buffer and the status -/

theorem swapLoop_length (mode : Nat) (total : Int) :
    ∀ (fuel i : Nat) (d d' : List Byte), swapLoop mode total fuel i d = some d' →
      d'.length = d.length := by
  intro fuel
  induction fuel with
  | zero =>
    intro i d d' h
    rw [swapLoop] at h
    by_cases h1 : (i : Int) < total
    · rw [if_pos h1] at h; cases h
    · rw [if_neg h1] at h; cases h; rfl
  | succ f ih =>
    intro i d d' h
    rw [swapLoop] at h
    by_cases h1 : (i : Int) < total
    · rw [if_pos h1] at h
      split at h
      · by_cases h2 : i + mode < 2 ^ 31
        · rw [if_pos h2] at h
          rw [ih _ _ _ h]
          simp
        · rw [if_neg h2] at h; cases h
      · cases h
    · rw [if_neg h1] at h; cases h; rfl

/-- The pixel read keeps every field but `imageData`, and keeps the size of the buffer. -/
theorem loadImageData_inv (file file' : FILE) (info info' : tgaInfo)
    (h : _tgaLoadImageData file info = some (file', info')) :
    info'.status = info.status ∧ info'.type = info.type ∧ info'.pixelDepth = info.pixelDepth ∧
    info'.width = info.width ∧ info'.height = info.height ∧
    ∃ buf buf', info.imageData = some buf ∧ info'.imageData = some buf' ∧
      buf'.length = buf.length := by
  unfold _tgaLoadImageData at h
  cases hb : info.imageData with
  | none => simp [hb] at h
  | some buf =>
    simp only [hb] at h
    by_cases h1 : buf.length < (fread file (toSizeT (totalBytes info))).1.length
    · rw [if_pos h1] at h; cases h
    · rw [if_neg h1] at h
      have hl : ((fread file (toSizeT (totalBytes info))).1
          ++ buf.drop (fread file (toSizeT (totalBytes info))).1.length).length = buf.length := by
        rw [List.length_append, List.length_drop]; omega
      by_cases h2 : 3 ≤ info.pixelDepth.val / 8
      · rw [if_pos h2] at h
        simp only [Option.map_eq_some'] at h
        obtain ⟨b, hb', hpair⟩ := h
        have hl' := swapLoop_length _ _ _ _ _ _ hb'
        simp only [Prod.mk.injEq] at hpair
        obtain ⟨-, rfl⟩ := hpair
        exact ⟨rfl, rfl, rfl, rfl, rfl, buf, b, rfl, rfl, by rw [hl', hl]⟩
      · rw [if_neg h2] at h
        simp only [Option.some.injEq, Prod.mk.injEq] at h
        obtain ⟨-, rfl⟩ := h
        exact ⟨rfl, rfl, rfl, rfl, rfl, buf, _, rfl, rfl, hl⟩

/-- What the checks guarantee about the buffer, by status. -/
theorem tgaLoadChecks_inv (file : FILE) (info : tgaInfo) (heap : Heap) (r : LoadResult)
    (i : tgaInfo) (h : tgaLoadChecks file info heap = some r) (hret : r.ret = some i) :
    (i.status = tgaStatus.TGA_OK →
      ∃ buf, i.imageData = some buf ∧ buf.length = toSizeT (totalBytes i) ∧
        r.heap = { heap with count := heap.count + 1 }) ∧
    (i.status = tgaStatus.TGA_ERROR_MEMORY → i.imageData = none ∧ r.heap = heap) ∧
    (i.status = tgaStatus.TGA_ERROR_INDEXED_COLOR ∨ i.status = tgaStatus.TGA_ERROR_COMPRESSED_FILE →
      i.imageData = info.imageData ∧ r.heap = heap) ∧
    i.status ≠ tgaStatus.TGA_ERROR_FILE_OPEN := by
  unfold tgaLoadChecks at h
  by_cases he : ferror file = true
  · rw [if_pos he] at h
    cases h
    cases hret
    simp
  · rw [if_neg he] at h
    by_cases h1 : info.type = 1
    · rw [if_pos h1] at h
      cases h
      cases hret
      simp
    · rw [if_neg h1] at h
      by_cases h23 : info.type ≠ 2 ∧ info.type ≠ 3
      · rw [if_pos h23] at h
        cases h
        cases hret
        simp
      · rw [if_neg h23] at h
        simp only [] at h
        by_cases hg : heap.grants (toSizeT (totalBytes info)) = true
        · simp only [malloc, hg, if_true] at h
          split at h
          · cases h
          · rename_i f' i' hload
            obtain ⟨hs, -, hpd, hw, hh, buf, buf', hb, hb', hlen⟩ := loadImageData_inv _ _ _ _ hload
            simp only [Option.some.injEq] at hb
            have htot : totalBytes i' = totalBytes info := by
              unfold totalBytes; rw [hpd, hw, hh]
            split_ifs at h
            · cases h
              cases hret
              simp
            · cases h
              cases hret
              simp only [true_implies, reduceCtorEq, false_implies, false_or, or_self, ne_eq,
                not_false_eq_true, and_true, and_self]
              refine ⟨buf', hb', ?_⟩
              rw [hlen, ← hb]
              simp [totalBytes] at htot ⊢
              rw [htot]
        · simp only [malloc, hg] at h
          cases h
          cases hret
          simp

/-- C7 (as amended): for every descriptor returned by `tgaLoad`: with status
`TGA_OK`, `imageData` is a non-null buffer of exactly `total` bytes (the `int`
product `height * width * (pixelDepth/8)` converted to `size_t`), the one block
the call allocated; with `TGA_ERROR_MEMORY`, `imageData` is null and nothing
was allocated; with `TGA_ERROR_FILE_OPEN`, `TGA_ERROR_INDEXED_COLOR` or
`TGA_ERROR_COMPRESSED_FILE`, nothing was allocated. -/
theorem C7_buffer_by_status (canCreate : String → Bool) (fs : String → Option DiskFile)
    (filename : String) (u : tgaInfo)
    (heap : Heap) (r : LoadResult) (info : tgaInfo)
    (h : tgaLoad canCreate fs (some u) heap filename = some r) (hret : r.ret = some info) :
    (info.status = tgaStatus.TGA_OK →
      ∃ buf, info.imageData = some buf ∧ buf.length = toSizeT (totalBytes info) ∧
        r.heap = { heap with count := heap.count + 1 }) ∧
    (info.status = tgaStatus.TGA_ERROR_MEMORY → info.imageData = none ∧ r.heap = heap) ∧
    (info.status = tgaStatus.TGA_ERROR_FILE_OPEN ∨
      info.status = tgaStatus.TGA_ERROR_INDEXED_COLOR ∨
      info.status = tgaStatus.TGA_ERROR_COMPRESSED_FILE → r.heap = heap) := by
  obtain ⟨fs1, h⟩ := tgaLoad_some canCreate fs (some u) heap filename r h
  unfold tgaLoadFrom at h
  simp only [] at h
  cases hf : fopen fs1 filename with
  | none =>
    rw [hf] at h
    cases h
    cases hret
    simp
  | some file =>
    rw [hf] at h
    obtain ⟨hok, hmem, hidx, hno⟩ := tgaLoadChecks_inv _ _ _ _ _ h hret
    refine ⟨hok, hmem, fun hs => ?_⟩
    rcases hs with hs | hs | hs
    · exact absurd hs hno
    · exact (hidx (Or.inl hs)).2
    · exact (hidx (Or.inr hs)).2

/-- C7 (as amended) at the 2 x 1 file with the triplets (1, 2, 3) and (4, 5, 6). -/
theorem C7_buffer_by_status_witness :
    (sampleLoaded.status = tgaStatus.TGA_OK →
      ∃ buf, sampleLoaded.imageData = some buf ∧ buf.length = toSizeT (totalBytes sampleLoaded) ∧
        ({ sampleHeap with count := 1 } : Heap)
          = { sampleHeap with count := sampleHeap.count + 1 }) ∧
    (sampleLoaded.status = tgaStatus.TGA_ERROR_MEMORY →
      sampleLoaded.imageData = none ∧ ({ sampleHeap with count := 1 } : Heap) = sampleHeap) ∧
    (sampleLoaded.status = tgaStatus.TGA_ERROR_FILE_OPEN ∨
      sampleLoaded.status = tgaStatus.TGA_ERROR_INDEXED_COLOR ∨
      sampleLoaded.status = tgaStatus.TGA_ERROR_COMPRESSED_FILE →
      ({ sampleHeap with count := 1 } : Heap) = sampleHeap) :=
  C7_buffer_by_status sampleDir
    (sampleFs (sampleHeader 2 24 2 0 1 0 ++ [1, 2, 3, 4, 5, 6]) StreamEnd.eof) "rgb.tga"
    sampleInfo sampleHeap
    { ret := some sampleLoaded, file := some ⟨[], StreamEnd.eof, false, false⟩,
      heap := { sampleHeap with count := 1 } }
    sampleLoaded (by rfl) (by rfl)

/-- C7 fails as stated: when the device fails during the pixel read (here after
three of six pixel bytes), the status is `TGA_ERROR_READING_FILE` and
`imageData` is the allocated six-byte buffer. -/
theorem C7_error_with_buffer :
    ((tgaLoad sampleDir (sampleFs (sampleHeader 2 24 2 0 1 0 ++ [1, 2, 3]) StreamEnd.ioError)
        (some sampleInfo) sampleHeap "bad.tga").bind (fun r => r.ret)).map
        (fun i => (i.status, i.imageData))
      = some (tgaStatus.TGA_ERROR_READING_FILE, some [3, 2, 1, 175, 174, 173]) := by
  decide

/-! ## C9: grey values -/

theorem getElem?_eq_some_getD (l : List Byte) (i : Nat) (h : i < l.length) :
    l[i]? = some (l.getD i 0) := by
  simp [List.getD_eq_getElem?_getD, List.getElem?_eq_getElem h]

/-- The conversion loop started at pixel `k` of `n` keeps the bytes before `k` and stores the
grey value of every later pixel; it needs no more than `n - k` iterations. -/
theorem greyLoop_spec (mode n : Nat) (src : List Byte) (hm : 3 ≤ mode)
    (hsrc : src.length = n * mode) (hb : n * mode < 2 ^ 31) :
    ∀ (m k fuel : Nat) (dst : List Byte), k + m = n → m ≤ fuel → dst.length = n →
      ∃ dst', greyLoop mode (n : Int) (some src) fuel (k * mode) k dst = some dst' ∧
        dst'.length = n ∧
        ∀ j, dst'[j]? = if k ≤ j ∧ j < n then some (greyAt src mode j) else dst[j]? := by
  intro m
  induction m with
  | zero =>
    intro k fuel dst hk _ hlen
    have hkn : k = n := by omega
    subst hkn
    refine ⟨dst, ?_, hlen, ?_⟩
    · cases fuel <;> simp [greyLoop]
    · intro j
      rw [if_neg (by omega)]
  | succ m ih =>
    intro k fuel dst hk hfuel hlen
    obtain ⟨f, rfl⟩ : ∃ f, fuel = f + 1 := ⟨fuel - 1, by omega⟩
    have hkn : k < n := by omega
    have h1 : k * mode + mode ≤ n * mode := by
      have := Nat.mul_le_mul_right mode (show k + 1 ≤ n by omega)
      rw [Nat.add_mul, Nat.one_mul] at this
      exact this
    have hcond : ((k : Nat) : Int) < ((n : Nat) : Int) := by exact_mod_cast hkn
    have hstep : (k + 1) * mode = k * mode + mode := by rw [Nat.add_mul, Nat.one_mul]
    obtain ⟨dst', hd', hlen', hspec⟩ := ih (k + 1) f (dst.set k (greyAt src mode k))
      (by omega) (by omega) (by simp [hlen])
    refine ⟨dst', ?_, hlen', ?_⟩
    · rw [greyLoop, if_pos hcond]
      simp only [Option.some_bind]
      rw [getElem?_eq_some_getD src _ (by omega), getElem?_eq_some_getD src _ (by omega),
        getElem?_eq_some_getD src _ (by omega)]
      simp only []
      rw [if_pos ⟨by omega, by omega⟩, ← hstep]
      exact hd'
    · intro j
      rw [hspec j, List.getElem?_set]
      by_cases hj : j < n
      · rcases Nat.lt_trichotomy j k with hjk | hjk | hjk
        · rw [if_neg (by omega), if_neg (by omega), if_neg (by omega)]
        · subst hjk
          rw [if_neg (by omega), if_pos rfl, if_pos (by omega), if_pos ⟨le_refl _, hj⟩]
        · rw [if_pos ⟨by omega, hj⟩, if_pos ⟨by omega, hj⟩]
      · rw [if_neg (by omega), if_neg (by omega), if_neg (by omega)]

/-- The request `sizeof(unsigned char) * height * width` for positive dimensions. -/
theorem grey_request (w h : Int) (n : Nat) (hw : 0 < w) (hh : 0 < h) (hn : (n : Int) = w * h)
    (hn31 : n < 2 ^ 31) : (toSizeT h * toSizeT w) % 2 ^ 64 = n := by
  obtain ⟨w', rfl⟩ := Int.eq_ofNat_of_zero_le (le_of_lt hw)
  obtain ⟨h', rfl⟩ := Int.eq_ofNat_of_zero_le (le_of_lt hh)
  have hn' : n = w' * h' := by exact_mod_cast hn
  have hw1 : 1 ≤ w' := by exact_mod_cast hw
  have hh1 : 1 ≤ h' := by exact_mod_cast hh
  have hwle : w' ≤ n := by
    rw [hn']
    calc w' = w' * 1 := (Nat.mul_one w').symm
      _ ≤ w' * h' := Nat.mul_le_mul_left w' hh1
  have hhle : h' ≤ n := by
    rw [hn']
    calc h' = 1 * h' := (Nat.one_mul h').symm
      _ ≤ w' * h' := Nat.mul_le_mul_right h' hw1
  rw [toSizeT_natCast h' (by omega), toSizeT_natCast w' (by omega), Nat.mul_comm h' w', ← hn']
  exact Nat.mod_eq_of_lt (by omega)

/-- The three constants are binary64 values (53 significant bits at their exponent) and lie
within half a unit in the last place of 0.30, 0.59 and 0.11. -/
theorem double_constants :
    (D030 % 4 = 0 ∧ D030 / 4 < 2 ^ 53 ∧ 3 * 2 ^ 56 ≤ 10 * D030 + 20 ∧ 10 * D030 ≤ 3 * 2 ^ 56 + 20) ∧
    (D059 % 8 = 0 ∧ D059 / 8 < 2 ^ 53 ∧ 59 * 2 ^ 56 ≤ 100 * D059 + 400 ∧
      100 * D059 ≤ 59 * 2 ^ 56 + 400) ∧
    (D011 < 2 ^ 53 ∧ 11 * 2 ^ 56 ≤ 100 * D011 + 50 ∧ 100 * D011 ≤ 11 * 2 ^ 56 + 50) := by
  decide

theorem excessBits_le : ∀ (fuel n k : Nat), n < 2 ^ (53 + k) → excessBits fuel n ≤ k := by
  intro fuel
  induction fuel with
  | zero => intro n k _; simp [excessBits]
  | succ f ih =>
    intro n k h
    rw [excessBits]
    split_ifs with h53
    · exact Nat.zero_le _
    · cases k with
      | zero => exact absurd h h53
      | succ k =>
        have h2 : n / 2 < 2 ^ (53 + k) := by
          have : 2 ^ (53 + (k + 1)) = 2 * 2 ^ (53 + k) := by
            rw [← Nat.add_assoc, Nat.pow_succ, Nat.mul_comm]
          omega
        have := ih (n / 2) k h2
        omega

/-- Rounding moves a value by at most half a unit in the last place. -/
theorem rnd53_near (n : Nat) :
    2 * rnd53 n ≤ 2 * n + 2 ^ excessBits n n ∧ 2 * n ≤ 2 * rnd53 n + 2 ^ excessBits n n := by
  unfold rnd53
  simp only []
  have hP : 0 < 2 ^ excessBits n n := Nat.pow_pos (by omega)
  revert hP
  generalize 2 ^ excessBits n n = P
  intro hP
  have hlt := Nat.mod_lt n hP
  have hn := Nat.div_add_mod n P
  have hmul : P * (n / P) = n / P * P := Nat.mul_comm _ _
  have hsucc : (n / P + 1) * P = n / P * P + P := by rw [Nat.add_mul, Nat.one_mul]
  split_ifs <;> omega

theorem rnd53_near64 (n : Nat) (h : n < 2 ^ 64) :
    rnd53 n ≤ n + 1024 ∧ n ≤ rnd53 n + 1024 := by
  have hs : excessBits n n ≤ 11 := excessBits_le n n 11 (by simpa using h)
  have hp : 2 ^ excessBits n n ≤ 2 ^ 11 := Nat.pow_le_pow_right (by omega) hs
  have := rnd53_near n
  omega

theorem greyDouble_near (r g b : Byte) :
    greyDouble r g b ≤ D030 * r.val + D059 * g.val + D011 * b.val + 5120 ∧
    D030 * r.val + D059 * g.val + D011 * b.val ≤ greyDouble r g b + 5120 := by
  have hr := r.isLt
  have hg := g.isLt
  have hb := b.isLt
  unfold greyDouble
  unfold D030 D059 D011 at *
  have h1 := rnd53_near64 (21617278211378380 * r.val) (by omega)
  have h2 := rnd53_near64 (42513980482377480 * g.val) (by omega)
  have h3 := rnd53_near64 (7926335344172073 * b.val) (by omega)
  have h4 := rnd53_near64 (rnd53 (21617278211378380 * r.val) + rnd53 (42513980482377480 * g.val))
    (by omega)
  have h5 := rnd53_near64 (rnd53 (rnd53 (21617278211378380 * r.val)
    + rnd53 (42513980482377480 * g.val)) + rnd53 (7926335344172073 * b.val)) (by omega)
  omega

theorem greyOf_val (r g b : Byte) : (greyOf r g b).val = greyDouble r g b / 2 ^ 56 := by
  have h := greyDouble_near r g b
  have hr := r.isLt
  have hg := g.isLt
  have hb := b.isLt
  unfold D030 D059 D011 at h
  unfold greyOf
  show (greyDouble r g b / 2 ^ 56) % 256 = _
  apply Nat.mod_eq_of_lt
  omega

theorem greyOf_near_exact (r g b : Byte) :
    (greyOf r g b).val ≤ greyExact r g b ∧ greyExact r g b ≤ (greyOf r g b).val + 1 ∧
    ((30 * r.val + 59 * g.val + 11 * b.val) % 100 ≠ 0 → (greyOf r g b).val = greyExact r g b) := by
  have h := greyDouble_near r g b
  have hr := r.isLt
  have hg := g.isLt
  have hb := b.isLt
  rw [greyOf_val]
  unfold D030 D059 D011 at h
  unfold greyExact
  omega

/-- C9 (as amended): for every descriptor with `pixelDepth` 24 or 32 (mode 3 or
4), positive `width` and `height`, `n = width * height` pixels with
`n * mode < 2^31` and an `imageData` of `n * mode` bytes, a call whose
allocation of `n` bytes is granted replaces `imageData` by a buffer of exactly
`n` bytes; byte `j` is the C expression `0.30*R + 0.59*G + 0.11*B` evaluated in
binary64 and truncated, with (R, G, B) the old bytes at `j*mode`, `j*mode+1`,
`j*mode+2`; that value is `floor((30R + 59G + 11B)/100)` or one less, and one
less only when 100 divides `30R + 59G + 11B`. The pixels (255,0,0), (0,255,0),
(0,0,255) give 76, 150, 28. -/
theorem C9_greyscale_values (heap : Heap) (info : tgaInfo) (src : List Byte) (n : Nat)
    (hdepth : info.pixelDepth = 24 ∨ info.pixelDepth = 32)
    (hw : 0 < info.width) (hh : 0 < info.height)
    (hn : (n : Int) = info.width * info.height)
    (hsrc : info.imageData = some src) (hlen : src.length = n * (info.pixelDepth.val / 8))
    (hb : n * (info.pixelDepth.val / 8) < 2 ^ 31) (hg : heap.grants n = true) :
    ∃ dst, tgaRGBtoGreyscale heap info
        = some ({ info with pixelDepth := 8, type := 3, imageData := some dst },
                { heap with count := heap.count + 1 }) ∧
      dst.length = n ∧
      (∀ j, j < n →
        dst[j]? = some (greyAt src (info.pixelDepth.val / 8) j) ∧
        (greyAt src (info.pixelDepth.val / 8) j).val
          ≤ greyExact (src.getD (j * (info.pixelDepth.val / 8)) 0)
              (src.getD (j * (info.pixelDepth.val / 8) + 1) 0)
              (src.getD (j * (info.pixelDepth.val / 8) + 2) 0) ∧
        greyExact (src.getD (j * (info.pixelDepth.val / 8)) 0)
              (src.getD (j * (info.pixelDepth.val / 8) + 1) 0)
              (src.getD (j * (info.pixelDepth.val / 8) + 2) 0)
          ≤ (greyAt src (info.pixelDepth.val / 8) j).val + 1 ∧
        ((30 * (src.getD (j * (info.pixelDepth.val / 8)) 0).val
              + 59 * (src.getD (j * (info.pixelDepth.val / 8) + 1) 0).val
              + 11 * (src.getD (j * (info.pixelDepth.val / 8) + 2) 0).val) % 100 ≠ 0 →
          (greyAt src (info.pixelDepth.val / 8) j).val
            = greyExact (src.getD (j * (info.pixelDepth.val / 8)) 0)
                (src.getD (j * (info.pixelDepth.val / 8) + 1) 0)
                (src.getD (j * (info.pixelDepth.val / 8) + 2) 0))) ∧
      greyOf 255 0 0 = 76 ∧ greyOf 0 255 0 = 150 ∧ greyOf 0 0 255 = 28 := by
  have hm : 3 ≤ info.pixelDepth.val / 8 := by rcases hdepth with h | h <;> rw [h] <;> decide
  have h8 : info.pixelDepth ≠ 8 := by rcases hdepth with h | h <;> rw [h] <;> decide
  have hn31 : n < 2 ^ 31 := by
    calc n = n * 1 := (Nat.mul_one n).symm
      _ ≤ n * (info.pixelDepth.val / 8) := Nat.mul_le_mul_left n (by omega)
      _ < 2 ^ 31 := hb
  have hsize : (toSizeT info.height * toSizeT info.width) % 2 ^ 64 = n :=
    grey_request _ _ n hw hh hn hn31
  obtain ⟨dst, hd, hl, hspec⟩ := greyLoop_spec (info.pixelDepth.val / 8) n src hm hlen hb n 0 n
    ((List.range n).map heap.junk) (by omega) (le_refl _) (by simp)
  refine ⟨dst, ?_, hl, fun j hj => ⟨by rw [hspec j, if_pos ⟨Nat.zero_le _, hj⟩],
    (greyOf_near_exact _ _ _).1, (greyOf_near_exact _ _ _).2.1, (greyOf_near_exact _ _ _).2.2⟩,
    by decide, by decide, by decide⟩
  unfold tgaRGBtoGreyscale
  rw [if_neg h8]
  simp only [hsize, malloc, hg, if_true, ← hn, wrap32_of_range (n : Int) (by omega) (by omega),
    Int.toNat_ofNat, hsrc]
  rw [Nat.zero_mul] at hd
  rw [hd]
  rfl

/-- C9 (as amended) at the 3 x 1 image red, green, blue. -/
theorem C9_greyscale_values_witness :
    ∃ dst, tgaRGBtoGreyscale sampleHeap sampleRGB
        = some ({ sampleRGB with pixelDepth := 8, type := 3, imageData := some dst },
                { sampleHeap with count := sampleHeap.count + 1 }) ∧
      dst.length = 3 ∧
      (∀ j, j < 3 →
        dst[j]? = some (greyAt [255, 0, 0, 0, 255, 0, 0, 0, 255] (sampleRGB.pixelDepth.val / 8) j) ∧
        (greyAt [255, 0, 0, 0, 255, 0, 0, 0, 255] (sampleRGB.pixelDepth.val / 8) j).val
          ≤ greyExact
              (([255, 0, 0, 0, 255, 0, 0, 0, 255] : List Byte).getD
                (j * (sampleRGB.pixelDepth.val / 8)) 0)
              (([255, 0, 0, 0, 255, 0, 0, 0, 255] : List Byte).getD
                (j * (sampleRGB.pixelDepth.val / 8) + 1) 0)
              (([255, 0, 0, 0, 255, 0, 0, 0, 255] : List Byte).getD
                (j * (sampleRGB.pixelDepth.val / 8) + 2) 0) ∧
        greyExact
              (([255, 0, 0, 0, 255, 0, 0, 0, 255] : List Byte).getD
                (j * (sampleRGB.pixelDepth.val / 8)) 0)
              (([255, 0, 0, 0, 255, 0, 0, 0, 255] : List Byte).getD
                (j * (sampleRGB.pixelDepth.val / 8) + 1) 0)
              (([255, 0, 0, 0, 255, 0, 0, 0, 255] : List Byte).getD
                (j * (sampleRGB.pixelDepth.val / 8) + 2) 0)
          ≤ (greyAt [255, 0, 0, 0, 255, 0, 0, 0, 255] (sampleRGB.pixelDepth.val / 8) j).val + 1 ∧
        ((30 * (([255, 0, 0, 0, 255, 0, 0, 0, 255] : List Byte).getD
                (j * (sampleRGB.pixelDepth.val / 8)) 0).val
              + 59 * (([255, 0, 0, 0, 255, 0, 0, 0, 255] : List Byte).getD
                (j * (sampleRGB.pixelDepth.val / 8) + 1) 0).val
              + 11 * (([255, 0, 0, 0, 255, 0, 0, 0, 255] : List Byte).getD
                (j * (sampleRGB.pixelDepth.val / 8) + 2) 0).val) % 100 ≠ 0 →
          (greyAt [255, 0, 0, 0, 255, 0, 0, 0, 255] (sampleRGB.pixelDepth.val / 8) j).val
            = greyExact
              (([255, 0, 0, 0, 255, 0, 0, 0, 255] : List Byte).getD
                (j * (sampleRGB.pixelDepth.val / 8)) 0)
              (([255, 0, 0, 0, 255, 0, 0, 0, 255] : List Byte).getD
                (j * (sampleRGB.pixelDepth.val / 8) + 1) 0)
              (([255, 0, 0, 0, 255, 0, 0, 0, 255] : List Byte).getD
                (j * (sampleRGB.pixelDepth.val / 8) + 2) 0))) ∧
      greyOf 255 0 0 = 76 ∧ greyOf 0 255 0 = 150 ∧ greyOf 0 0 255 = 28 :=
  C9_greyscale_values sampleHeap sampleRGB [255, 0, 0, 0, 255, 0, 0, 0, 255] 3
    (Or.inl rfl) (by decide) (by decide) (by decide) rfl (by decide) (by decide) (by decide)

/-- C9 fails as stated: for the single pixel (R, G, B) = (0, 23, 13) the exact
value of `0.30*R + 0.59*G + 0.11*B` is 15, but the binary64 evaluation of the
code stays just below 15 and the stored byte is 14. Already the exact sum of
the two products with the binary64 constants for 0.59 and 0.11 lies below 15,
so the outcome does not depend on how the intermediate results are rounded. -/
theorem C9_double_rounding :
    (tgaRGBtoGreyscale sampleHeap
        { sampleRGB with width := 1, imageData := some [0, 23, 13] }).map
        (fun p => p.1.imageData) = some (some [14]) ∧
    greyExact 0 23 13 = 15 ∧
    D030 * 0 + D059 * 23 + D011 * 13 < 15 * 2 ^ 56 := by
  decide

/-! ## C10: greyscale conversion of an 8-bit image -/

/-- C10: on a descriptor whose `pixelDepth` is 8, `tgaRGBtoGreyscale` returns
the descriptor and the heap exactly as they were (every field unchanged, no
allocation), and so does any number of successive calls. -/
theorem C10_greyscale_noop (heap : Heap) (info : tgaInfo) (h8 : info.pixelDepth = 8) :
    tgaRGBtoGreyscale heap info = some (info, heap) ∧
    ∀ k, greyTimes k heap info = some (info, heap) := by
  have h1 : tgaRGBtoGreyscale heap info = some (info, heap) := by simp [tgaRGBtoGreyscale, h8]
  refine ⟨h1, fun k => ?_⟩
  induction k with
  | zero => rfl
  | succ k ih => simp [greyTimes, h1, ih]

/-- C10 on a 2 x 1 greyscale image. -/
theorem C10_greyscale_noop_witness :
    tgaRGBtoGreyscale sampleHeap
        { sampleInfo with pixelDepth := 8, type := 3, width := 2, height := 1,
                          imageData := some [10, 20] }
      = some ({ sampleInfo with pixelDepth := 8, type := 3, width := 2, height := 1,
                                imageData := some [10, 20] }, sampleHeap) ∧
    ∀ k, greyTimes k sampleHeap
        { sampleInfo with pixelDepth := 8, type := 3, width := 2, height := 1,
                          imageData := some [10, 20] }
      = some ({ sampleInfo with pixelDepth := 8, type := 3, width := 2, height := 1,
                                imageData := some [10, 20] }, sampleHeap) :=
  C10_greyscale_noop sampleHeap _ rfl

/-! ## C11: greyscale conversion when the allocation fails -/

/-- The call `malloc(n)` when the request is refused. -/
theorem malloc_refused (heap : Heap) (n : Nat) (h : heap.grants n = false) :
    malloc heap n = (none, heap) := by
  simp [malloc, h]

/-- C11: for every descriptor with `pixelDepth` other than 8, when the allocation
of the new `height * width` buffer fails, `tgaRGBtoGreyscale` returns with the
descriptor (every field, `imageData` included) and the heap exactly as they
were. -/
theorem C11_allocation_failure (heap : Heap) (info : tgaInfo) (h8 : info.pixelDepth ≠ 8)
    (hfail : heap.grants ((toSizeT info.height * toSizeT info.width) % 2 ^ 64) = false) :
    tgaRGBtoGreyscale heap info = some (info, heap) := by
  unfold tgaRGBtoGreyscale
  rw [if_neg h8, malloc_refused heap _ hfail]

/-- C11 at the 3 x 1 RGB image on a heap that refuses every request. -/
theorem C11_allocation_failure_witness :
    tgaRGBtoGreyscale fullHeap sampleRGB = some (sampleRGB, fullHeap) :=
  C11_allocation_failure fullHeap sampleRGB (by decide) rfl

/-! ## C12: the fields after a greyscale conversion -/

/-- Every completed conversion has set `pixelDepth` and `type` and kept the other fields but
`imageData`. -/
theorem greyscale_frame (heap heap' : Heap) (info info' : tgaInfo) (h8 : info.pixelDepth ≠ 8)
    (hg : heap.grants ((toSizeT info.height * toSizeT info.width) % 2 ^ 64) = true)
    (h : tgaRGBtoGreyscale heap info = some (info', heap')) :
    info'.pixelDepth = 8 ∧ info'.type = 3 ∧ info'.width = info.width ∧
    info'.height = info.height ∧ info'.status = info.status ∧ info'.format = info.format ∧
    info'.components = info.components ∧ heap' = { heap with count := heap.count + 1 } := by
  unfold tgaRGBtoGreyscale at h
  rw [if_neg h8] at h
  simp only [malloc, hg, if_true, Option.map_eq_some'] at h
  obtain ⟨d, -, hpair⟩ := h
  simp only [Prod.mk.injEq] at hpair
  obtain ⟨rfl, rfl⟩ := hpair
  exact ⟨rfl, rfl, rfl, rfl, rfl, rfl, rfl, rfl⟩

/-- The conversion loop completes whenever its reads stay inside the source buffer, the
destination has `n` bytes and the byte index does not overflow. -/
theorem greyLoop_defined (mode n : Nat) (src : List Byte)
    (hread : ∀ j, j < n → j * mode + 2 < src.length) (hb : n * mode < 2 ^ 31) :
    ∀ (m k fuel : Nat) (dst : List Byte), k + m = n → m ≤ fuel → dst.length = n →
      ∃ dst', greyLoop mode (n : Int) (some src) fuel (k * mode) k dst = some dst' ∧
        dst'.length = n := by
  intro m
  induction m with
  | zero =>
    intro k fuel dst hk _ hlen
    have hkn : k = n := by omega
    subst hkn
    refine ⟨dst, ?_, hlen⟩
    cases fuel <;> simp [greyLoop]
  | succ m ih =>
    intro k fuel dst hk hfuel hlen
    obtain ⟨f, rfl⟩ : ∃ f, fuel = f + 1 := ⟨fuel - 1, by omega⟩
    have hkn : k < n := by omega
    have h1 : k * mode + mode ≤ n * mode := by
      have := Nat.mul_le_mul_right mode (show k + 1 ≤ n by omega)
      rw [Nat.add_mul, Nat.one_mul] at this
      exact this
    have hcond : ((k : Nat) : Int) < ((n : Nat) : Int) := by exact_mod_cast hkn
    have hstep : (k + 1) * mode = k * mode + mode := by rw [Nat.add_mul, Nat.one_mul]
    have hr := hread k hkn
    obtain ⟨dst', hd', hlen'⟩ := ih (k + 1) f (dst.set k (greyAt src mode k))
      (by omega) (by omega) (by simp [hlen])
    refine ⟨dst', ?_, hlen'⟩
    rw [greyLoop, if_pos hcond]
    simp only [Option.some_bind]
    rw [getElem?_eq_some_getD src _ (by omega), getElem?_eq_some_getD src _ (by omega),
      getElem?_eq_some_getD src _ (by omega)]
    simp only []
    rw [if_pos ⟨by omega, by omega⟩, ← hstep]
    exact hd'

/-- The conversion loop cannot complete when the byte index `i` has to pass `2^31`: the
execution is undefined at the latest when `i += mode` overflows. -/
theorem greyLoop_overflows (mode n : Nat) (src : Option (List Byte))
    (hov : 2 ^ 31 ≤ n * mode) :
    ∀ (m k fuel : Nat) (dst : List Byte), k + m = n → k * mode < 2 ^ 31 →
      greyLoop mode (n : Int) src fuel (k * mode) k dst = none := by
  intro m
  induction m with
  | zero =>
    intro k fuel dst hk hlt
    have hkn : k = n := by omega
    subst hkn
    omega
  | succ m ih =>
    intro k fuel dst hk hlt
    have hkn : k < n := by omega
    have hcond : ((k : Nat) : Int) < ((n : Nat) : Int) := by exact_mod_cast hkn
    have hstep : (k + 1) * mode = k * mode + mode := by rw [Nat.add_mul, Nat.one_mul]
    cases fuel with
    | zero => rw [greyLoop, if_pos hcond]
    | succ f =>
      rw [greyLoop, if_pos hcond]
      split
      · split_ifs with hc
        · rw [← hstep]
          exact ih (k + 1) f _ (by omega) (by rw [hstep]; exact hc.2)
        · rfl
      · rfl


theorem hugeImage_length : hugeImage.length = 32767 * 32767 := by
  unfold hugeImage
  exact List.length_replicate _ _

/-- The byte count of a descriptor with `n = width * height` pixels when nothing wraps. -/
theorem totalBytes_of_pixels (info : tgaInfo) (n : Nat)
    (hn : (n : Int) = info.width * info.height) (hn31 : n < 2 ^ 31)
    (hb : n * (info.pixelDepth.val / 8) < 2 ^ 31) :
    totalBytes info = ((n * (info.pixelDepth.val / 8) : Nat) : Int) := by
  unfold totalBytes
  rw [Int.mul_comm info.height, ← hn, wrap32_of_range (n : Int) (by omega) (by omega)]
  have hcast : (n : Int) * (((info.pixelDepth.val / 8 : Nat)) : Int)
      = ((n * (info.pixelDepth.val / 8) : Nat) : Int) := by push_cast; rfl
  rw [hcast]
  exact wrap32_of_range _ (by omega) (by omega)

/-- The conversion is defined whenever its reads stay inside `imageData` and the byte index
does not overflow. -/
theorem greyscale_defined (heap : Heap) (info : tgaInfo) (src : List Byte) (n : Nat)
    (h8 : info.pixelDepth ≠ 8) (hw : 0 < info.width) (hh : 0 < info.height)
    (hn : (n : Int) = info.width * info.height) (hn31 : n < 2 ^ 31)
    (hsrc : info.imageData = some src)
    (hread : ∀ j, j < n → j * (info.pixelDepth.val / 8) + 2 < src.length)
    (hb : n * (info.pixelDepth.val / 8) < 2 ^ 31) (hg : heap.grants n = true) :
    ∃ dst, tgaRGBtoGreyscale heap info
        = some ({ info with pixelDepth := 8, type := 3, imageData := some dst },
                { heap with count := heap.count + 1 }) ∧ dst.length = n := by
  have hsize : (toSizeT info.height * toSizeT info.width) % 2 ^ 64 = n :=
    grey_request _ _ n hw hh hn hn31
  obtain ⟨dst, hd, hl⟩ := greyLoop_defined (info.pixelDepth.val / 8) n src hread hb n 0 n
    ((List.range n).map heap.junk) (by omega) (le_refl _) (by simp)
  refine ⟨dst, ?_, hl⟩
  unfold tgaRGBtoGreyscale
  rw [if_neg h8]
  simp only [hsize, malloc, hg, if_true, ← hn, wrap32_of_range (n : Int) (by omega) (by omega),
    Int.toNat_ofNat, hsrc]
  rw [Nat.zero_mul] at hd
  rw [hd]
  rfl

/-- The conversion is undefined when `width * height * mode` reaches `2^31`. -/
theorem greyscale_overflows (heap : Heap) (info : tgaInfo) (n : Nat)
    (h8 : info.pixelDepth ≠ 8) (hw : 0 < info.width) (hh : 0 < info.height)
    (hn : (n : Int) = info.width * info.height) (hn31 : n < 2 ^ 31)
    (hov : 2 ^ 31 ≤ n * (info.pixelDepth.val / 8)) (hg : heap.grants n = true) :
    tgaRGBtoGreyscale heap info = none := by
  have hsize : (toSizeT info.height * toSizeT info.width) % 2 ^ 64 = n :=
    grey_request _ _ n hw hh hn hn31
  have hloop := greyLoop_overflows (info.pixelDepth.val / 8) n info.imageData hov n 0 n
    ((List.range n).map heap.junk) (by omega) (by omega)
  unfold tgaRGBtoGreyscale
  rw [if_neg h8]
  simp only [hsize, malloc, hg, if_true, ← hn, wrap32_of_range (n : Int) (by omega) (by omega),
    Int.toNat_ofNat]
  rw [Nat.zero_mul] at hloop
  rw [hloop]
  rfl

/-- C12: for every descriptor with `pixelDepth` other than 8 and a granted
allocation, every completed call of `tgaRGBtoGreyscale` has set `pixelDepth`
to 8 and `type` to 3 and left `width`, `height` and `status` as they were; the
call completes whenever its reads stay inside `imageData` and the `int` byte
index stays below `2^31` (the result `none` stands for an execution that reads
outside `imageData` or overflows the index, where C defines no result). -/
theorem C12_greyscale_frame (heap : Heap) (info : tgaInfo) (h8 : info.pixelDepth ≠ 8)
    (hg : heap.grants ((toSizeT info.height * toSizeT info.width) % 2 ^ 64) = true) :
    (∀ info' heap', tgaRGBtoGreyscale heap info = some (info', heap') →
      info'.pixelDepth = 8 ∧ info'.type = 3 ∧ info'.width = info.width ∧
      info'.height = info.height ∧ info'.status = info.status) ∧
    (∀ (src : List Byte) (n : Nat), 0 < info.width → 0 < info.height →
      (n : Int) = info.width * info.height → n < 2 ^ 31 → info.imageData = some src →
      (∀ j, j < n → j * (info.pixelDepth.val / 8) + 2 < src.length) →
      n * (info.pixelDepth.val / 8) < 2 ^ 31 →
      ∃ info' heap', tgaRGBtoGreyscale heap info = some (info', heap')) := by
  constructor
  · intro info' heap' h
    obtain ⟨h1, h2, h3, h4, h5, -⟩ := greyscale_frame heap heap' info info' h8 hg h
    exact ⟨h1, h2, h3, h4, h5⟩
  · intro src n hw hh hn hn31 hsrc hread hb
    have hsize : (toSizeT info.height * toSizeT info.width) % 2 ^ 64 = n :=
      grey_request _ _ n hw hh hn hn31
    rw [hsize] at hg
    obtain ⟨dst, hd, -⟩ := greyscale_defined heap info src n h8 hw hh hn hn31 hsrc hread hb hg
    exact ⟨_, _, hd⟩

/-- C12 at the 3 x 1 RGB image. -/
theorem C12_greyscale_frame_witness :
    (∀ info' heap', tgaRGBtoGreyscale sampleHeap sampleRGB = some (info', heap') →
      info'.pixelDepth = 8 ∧ info'.type = 3 ∧ info'.width = sampleRGB.width ∧
      info'.height = sampleRGB.height ∧ info'.status = sampleRGB.status) ∧
    (∀ (src : List Byte) (n : Nat), 0 < sampleRGB.width → 0 < sampleRGB.height →
      (n : Int) = sampleRGB.width * sampleRGB.height → n < 2 ^ 31 →
      sampleRGB.imageData = some src →
      (∀ j, j < n → j * (sampleRGB.pixelDepth.val / 8) + 2 < src.length) →
      n * (sampleRGB.pixelDepth.val / 8) < 2 ^ 31 →
      ∃ info' heap', tgaRGBtoGreyscale sampleHeap sampleRGB = some (info', heap')) :=
  C12_greyscale_frame sampleHeap sampleRGB (by decide) (by decide)

/-! ## C13: the format switch of the header -/

/-- The header parse ends with the format switch, applied to a descriptor that still has
the `format` and `components` it started with. -/
theorem loadHeader_switch (file : FILE) (u : tgaInfo) :
    ∃ X, (_tgaLoadHeader file u).2 = formatSwitch X ∧ X.format = u.format ∧
      X.components = u.components :=
  ⟨_, rfl, rfl, rfl⟩

/-- What the format switch assigns. -/
theorem formatSwitch_tags (X : tgaInfo) :
    ((formatSwitch X).pixelDepth.val / 8 = 3 →
      (formatSwitch X).format = GL_RGB ∧ (formatSwitch X).components = GL_RGB8) ∧
    ((formatSwitch X).pixelDepth.val / 8 = 4 →
      (formatSwitch X).format = GL_RGBA ∧ (formatSwitch X).components = GL_RGBA8) ∧
    ((formatSwitch X).pixelDepth.val / 8 = 1 →
      (formatSwitch X).format = GL_LUMINANCE ∧ (formatSwitch X).components = GL_LUMINANCE8) ∧
    ((formatSwitch X).pixelDepth.val / 8 ≠ 3 → (formatSwitch X).pixelDepth.val / 8 ≠ 4 →
      (formatSwitch X).pixelDepth.val / 8 ≠ 1 →
      (formatSwitch X).format = X.format ∧ (formatSwitch X).components = X.components) := by
  rw [formatSwitch_pixelDepth]
  unfold formatSwitch
  simp only []
  refine ⟨fun h => ?_, fun h => ?_, fun h => ?_, fun h3 h4 h1 => ?_⟩
  · rw [if_pos h]; exact ⟨rfl, rfl⟩
  · rw [if_neg (by omega), if_pos h]; exact ⟨rfl, rfl⟩
  · rw [if_neg (by omega), if_neg (by omega), if_pos h]; exact ⟨rfl, rfl⟩
  · rw [if_neg h3, if_neg h4, if_neg h1]; exact ⟨rfl, rfl⟩

/-- C13: for every header read by `_tgaLoadHeader` (any stream, any fresh
descriptor `u`), `format` and `components` are the RGB tags when
`pixelDepth/8 = 3`, the RGBA tags when it is 4 and the luminance tags when it
is 1; for any other value they are not assigned: they are what `u` held. -/
theorem C13_format_tags (file : FILE) (u : tgaInfo) :
    ((_tgaLoadHeader file u).2.pixelDepth.val / 8 = 3 →
      (_tgaLoadHeader file u).2.format = GL_RGB ∧
      (_tgaLoadHeader file u).2.components = GL_RGB8) ∧
    ((_tgaLoadHeader file u).2.pixelDepth.val / 8 = 4 →
      (_tgaLoadHeader file u).2.format = GL_RGBA ∧
      (_tgaLoadHeader file u).2.components = GL_RGBA8) ∧
    ((_tgaLoadHeader file u).2.pixelDepth.val / 8 = 1 →
      (_tgaLoadHeader file u).2.format = GL_LUMINANCE ∧
      (_tgaLoadHeader file u).2.components = GL_LUMINANCE8) ∧
    ((_tgaLoadHeader file u).2.pixelDepth.val / 8 ≠ 3 →
      (_tgaLoadHeader file u).2.pixelDepth.val / 8 ≠ 4 →
      (_tgaLoadHeader file u).2.pixelDepth.val / 8 ≠ 1 →
      (_tgaLoadHeader file u).2.format = u.format ∧
      (_tgaLoadHeader file u).2.components = u.components) := by
  obtain ⟨X, hX, hf, hc⟩ := loadHeader_switch file u
  rw [hX, ← hf, ← hc]
  exact formatSwitch_tags X

/-! ## C14: tags and pixel depth -/

/-- The pixel read leaves `format`, `components` and `pixelDepth` alone. -/
theorem loadImageData_tags (file file' : FILE) (info info' : tgaInfo)
    (h : _tgaLoadImageData file info = some (file', info')) :
    info'.format = info.format ∧ info'.components = info.components ∧
    info'.pixelDepth = info.pixelDepth := by
  unfold _tgaLoadImageData at h
  cases hb : info.imageData with
  | none => simp [hb] at h
  | some buf =>
    simp only [hb] at h
    by_cases h1 : buf.length < (fread file (toSizeT (totalBytes info))).1.length
    · rw [if_pos h1] at h; cases h
    · rw [if_neg h1] at h
      by_cases h2 : 3 ≤ info.pixelDepth.val / 8
      · rw [if_pos h2] at h
        simp only [Option.map_eq_some'] at h
        obtain ⟨b, -, hpair⟩ := h
        simp only [Prod.mk.injEq] at hpair
        obtain ⟨-, rfl⟩ := hpair
        exact ⟨rfl, rfl, rfl⟩
      · rw [if_neg h2] at h
        simp only [Option.some.injEq, Prod.mk.injEq] at h
        obtain ⟨-, rfl⟩ := h
        exact ⟨rfl, rfl, rfl⟩

/-- The checks leave `format`, `components` and `pixelDepth` alone. -/
theorem tgaLoadChecks_tags (file : FILE) (info : tgaInfo) (heap : Heap) (r : LoadResult)
    (i : tgaInfo) (h : tgaLoadChecks file info heap = some r) (hret : r.ret = some i) :
    i.format = info.format ∧ i.components = info.components ∧
    i.pixelDepth = info.pixelDepth := by
  unfold tgaLoadChecks at h
  split_ifs at h with he h1 h23
  · cases h; cases hret; exact ⟨rfl, rfl, rfl⟩
  · cases h; cases hret; exact ⟨rfl, rfl, rfl⟩
  · cases h; cases hret; exact ⟨rfl, rfl, rfl⟩
  · simp only [] at h
    split at h
    · cases h; cases hret; exact ⟨rfl, rfl, rfl⟩
    · split at h
      · cases h
      · rename_i f' i' hload
        have ht := loadImageData_tags _ _ _ _ hload
        split_ifs at h <;> (cases h; cases hret; exact ht)

/-- After a load with status `TGA_OK` the tags describe the channel layout of the pixel depth:
luminance for one byte per pixel, RGB for three, RGBA for four. -/
theorem tgaLoad_tags (canCreate : String → Bool) (fs : String → Option DiskFile)
    (filename : String) (u : tgaInfo)
    (heap : Heap) (r : LoadResult) (info : tgaInfo)
    (h : tgaLoad canCreate fs (some u) heap filename = some r) (hret : r.ret = some info)
    (hok : info.status = tgaStatus.TGA_OK) :
    (info.pixelDepth.val / 8 = 1 →
      info.format = GL_LUMINANCE ∧ info.components = GL_LUMINANCE8) ∧
    (info.pixelDepth.val / 8 = 3 → info.format = GL_RGB ∧ info.components = GL_RGB8) ∧
    (info.pixelDepth.val / 8 = 4 → info.format = GL_RGBA ∧ info.components = GL_RGBA8) := by
  obtain ⟨fs1, h⟩ := tgaLoad_some canCreate fs (some u) heap filename r h
  unfold tgaLoadFrom at h
  simp only [] at h
  cases hf : fopen fs1 filename with
  | none =>
    rw [hf] at h
    cases h
    cases hret
    simp at hok
  | some file =>
    rw [hf] at h
    obtain ⟨h1, h2, h3⟩ := tgaLoadChecks_tags _ _ _ _ _ h hret
    obtain ⟨X, hX, -, -⟩ := loadHeader_switch file u
    rw [h1, h2, h3, hX]
    obtain ⟨t3, t4, t1, -⟩ := formatSwitch_tags X
    exact ⟨t1, t3, t4⟩

/-- C14 (the code at the failing input): on the descriptor that `tgaLoad`
returns for a 2 x 1 RGB file (depth 24, tags `GL_RGB` / `GL_RGB8`),
`tgaRGBtoGreyscale` sets `pixelDepth` to 8 and leaves `format` and
`components` at the RGB tags, which are not the luminance tags of an 8-bit
image. -/
theorem C14_tags_stale_after_greyscale :
    (tgaRGBtoGreyscale sampleHeap sampleLoaded).map
        (fun p => (p.1.pixelDepth, p.1.format, p.1.components)) = some (8, GL_RGB, GL_RGB8) ∧
    GL_RGB ≠ GL_LUMINANCE ∧ GL_RGB8 ≠ GL_LUMINANCE8 := by
  decide

/-! ## C15: the byte count in `int` arithmetic -/

/-- C15 fails as stated: for width = height = 32767 and pixel depth 24 the
mathematical product is 3221028867, while the `int` expression
`height * width * mode` evaluates to -1073938429. -/
theorem C15_total_wraps :
    totalBytes { sampleInfo with type := 2, pixelDepth := 24, width := 32767, height := 32767 }
      = -1073938429 ∧
    (32767 : Int) * 32767 * (((24 : Byte).val / 8 : Nat) : Int) = 3221028867 := by
  decide

/-- C15 (as amended): for every width and height in the signed 16-bit range and
every pixel depth, the byte count `total` equals the mathematical product
`height * width * (pixelDepth/8)` whenever that product lies in the range of a
32-bit `int`; this is always so when `pixelDepth/8 <= 1`. -/
theorem C15_total_exact (info : tgaInfo)
    (hw : -32768 ≤ info.width ∧ info.width ≤ 32767)
    (hh : -32768 ≤ info.height ∧ info.height ≤ 32767) :
    (-(2 ^ 31) ≤ info.height * info.width * ((info.pixelDepth.val / 8 : Nat) : Int) ∧
      info.height * info.width * ((info.pixelDepth.val / 8 : Nat) : Int) < 2 ^ 31 →
      totalBytes info = info.height * info.width * ((info.pixelDepth.val / 8 : Nat) : Int)) ∧
    (info.pixelDepth.val / 8 ≤ 1 →
      totalBytes info = info.height * info.width * ((info.pixelDepth.val / 8 : Nat) : Int)) := by
  have hprod : -(2 ^ 30) ≤ info.height * info.width ∧ info.height * info.width ≤ 2 ^ 30 := by
    constructor <;> nlinarith [hw.1, hw.2, hh.1, hh.2]
  have hfit : -(2 ^ 31) ≤ info.height * info.width * ((info.pixelDepth.val / 8 : Nat) : Int) ∧
      info.height * info.width * ((info.pixelDepth.val / 8 : Nat) : Int) < 2 ^ 31 →
      totalBytes info
        = info.height * info.width * ((info.pixelDepth.val / 8 : Nat) : Int) := by
    intro h
    unfold totalBytes
    rw [wrap32_of_range (info.height * info.width) (by omega) (by omega),
      wrap32_of_range _ h.1 h.2]
  refine ⟨hfit, fun hm => hfit ?_⟩
  have hcases : info.pixelDepth.val / 8 = 0 ∨ info.pixelDepth.val / 8 = 1 := by omega
  rcases hcases with h0 | h1
  · rw [h0]; simp
  · rw [h1]; simp; omega

/-- C15 (as amended) at a 2 x 1 image of depth 24: `total` is 6. -/
theorem C15_total_exact_witness :
    (-(2 ^ 31) ≤ sampleLoaded.height * sampleLoaded.width
        * ((sampleLoaded.pixelDepth.val / 8 : Nat) : Int) ∧
      sampleLoaded.height * sampleLoaded.width
        * ((sampleLoaded.pixelDepth.val / 8 : Nat) : Int) < 2 ^ 31 →
      totalBytes sampleLoaded
        = sampleLoaded.height * sampleLoaded.width
          * ((sampleLoaded.pixelDepth.val / 8 : Nat) : Int)) ∧
    (sampleLoaded.pixelDepth.val / 8 ≤ 1 →
      totalBytes sampleLoaded
        = sampleLoaded.height * sampleLoaded.width
          * ((sampleLoaded.pixelDepth.val / 8 : Nat) : Int)) :=
  C15_total_exact sampleLoaded (by decide) (by decide)

/-! ## C16: the indices of the two loops -/

/-- C16 fails as stated: the descriptor of a 32767 x 32767 RGB image with its
buffer of exactly `width * height * 3` bytes meets the precondition, yet the
conversion loop cannot stay inside the buffer: its `int` byte index `i` has to
pass `2^31`, and the execution is undefined. -/
theorem C16_index_overflows :
    (0 < hugeInfo.width ∧ 0 < hugeInfo.height ∧ 3 ≤ hugeInfo.pixelDepth.val / 8 ∧
      ∃ src, hugeInfo.imageData = some src ∧
        (src.length : Int)
          = hugeInfo.width * hugeInfo.height * ((hugeInfo.pixelDepth.val / 8 : Nat) : Int)) ∧
    tgaRGBtoGreyscale sampleHeap hugeInfo = none := by
  refine ⟨⟨by decide, by decide, by decide, bgrBytes hugeImage, rfl, ?_⟩, ?_⟩
  · rw [bgrBytes_length, hugeImage_length]
    decide
  · exact greyscale_overflows sampleHeap hugeInfo (32767 * 32767) (by decide) (by decide)
      (by decide) (by decide) (by decide) (by decide) (by decide)

/-- C16 (as amended): for every descriptor with positive `width` and `height`,
`mode = pixelDepth/8 >= 3`, `n = width * height` pixels with
`n * mode < 2^31` and an `imageData` of exactly `n * mode` bytes: every read
index `j*mode + 2` (hence `j*mode` and `j*mode + 1`) with `j < n` lies inside
the buffer; `tgaRGBtoGreyscale` (allocation granted) completes, so that none
of its reads and none of its writes into the new `n`-byte buffer is out of
range; the swap loop and `_tgaLoadImageData` complete on the buffer, so that
none of their accesses `i`, `i + 2` is out of range. -/
theorem C16_indices_in_bounds (heap : Heap) (file : FILE) (info : tgaInfo) (src : List Byte)
    (n : Nat) (hm : 3 ≤ info.pixelDepth.val / 8) (hw : 0 < info.width) (hh : 0 < info.height)
    (hn : (n : Int) = info.width * info.height)
    (hsrc : info.imageData = some src) (hlen : src.length = n * (info.pixelDepth.val / 8))
    (hb : n * (info.pixelDepth.val / 8) < 2 ^ 31) (hg : heap.grants n = true) :
    (∀ j, j < n → j * (info.pixelDepth.val / 8) + 2 < src.length) ∧
    (∃ dst, tgaRGBtoGreyscale heap info
        = some ({ info with pixelDepth := 8, type := 3, imageData := some dst },
                { heap with count := heap.count + 1 }) ∧ dst.length = n) ∧
    (∃ d', swapLoop (info.pixelDepth.val / 8) (totalBytes info) (totalBytes info).toNat 0 src
        = some d') ∧
    (∃ r, _tgaLoadImageData file info = some r) := by
  have hn31 : n < 2 ^ 31 := by
    calc n = n * 1 := (Nat.mul_one n).symm
      _ ≤ n * (info.pixelDepth.val / 8) := Nat.mul_le_mul_left n (by omega)
      _ < 2 ^ 31 := hb
  have h8 : info.pixelDepth ≠ 8 := by
    intro h
    rw [h] at hm
    exact absurd hm (by decide)
  have hread : ∀ j, j < n → j * (info.pixelDepth.val / 8) + 2 < src.length := by
    intro j hj
    have := Nat.mul_le_mul_right (info.pixelDepth.val / 8) (show j + 1 ≤ n by omega)
    rw [Nat.add_mul, Nat.one_mul] at this
    omega
  have htot := totalBytes_of_pixels info n hn hn31 hb
  refine ⟨hread, greyscale_defined heap info src n h8 hw hh hn hn31 hsrc hread hb hg, ?_, ?_⟩
  · obtain ⟨d', hd', -, -⟩ := swapLoop_spec (info.pixelDepth.val / 8) n hm hb n 0
      (n * (info.pixelDepth.val / 8)) src (by omega)
      (by calc n = n * 1 := (Nat.mul_one n).symm
            _ ≤ n * (info.pixelDepth.val / 8) := Nat.mul_le_mul_left n (by omega)) hlen
    rw [Nat.zero_mul] at hd'
    exact ⟨d', by rw [htot, Int.toNat_ofNat]; exact hd'⟩
  · obtain ⟨d', hd', -, -⟩ := loadImageData_rgb_any file info src n hm htot hb hsrc hlen
    exact ⟨_, hd'⟩

/-- C16 (as amended) at the 3 x 1 RGB image. -/
theorem C16_indices_in_bounds_witness :
    (∀ j, j < 3 → j * (sampleRGB.pixelDepth.val / 8) + 2
        < ([255, 0, 0, 0, 255, 0, 0, 0, 255] : List Byte).length) ∧
    (∃ dst, tgaRGBtoGreyscale sampleHeap sampleRGB
        = some ({ sampleRGB with pixelDepth := 8, type := 3, imageData := some dst },
                { sampleHeap with count := sampleHeap.count + 1 }) ∧ dst.length = 3) ∧
    (∃ d', swapLoop (sampleRGB.pixelDepth.val / 8) (totalBytes sampleRGB)
        (totalBytes sampleRGB).toNat 0 [255, 0, 0, 0, 255, 0, 0, 0, 255] = some d') ∧
    (∃ r, _tgaLoadImageData ⟨[1, 2, 3], StreamEnd.eof, false, false⟩ sampleRGB = some r) :=
  C16_indices_in_bounds sampleHeap ⟨[1, 2, 3], StreamEnd.eof, false, false⟩ sampleRGB
    [255, 0, 0, 0, 255, 0, 0, 0, 255] 3 (by decide) (by decide) (by decide) (by decide) rfl
    (by decide) (by decide) (by decide)

/-! ## C17: the range of the grey value -/

/-- In the binary64 arithmetic that the code runs, the stored grey byte lies between
`min(R,G,B) - 1` and `max(R,G,B)`, the value converted to `unsigned char` is below 256 and
white is stored as 255. -/
theorem greyOf_bounds (r g b : Byte) :
    (greyOf r g b).val ≤ max r.val (max g.val b.val) ∧
    min r.val (min g.val b.val) ≤ (greyOf r g b).val + 1 ∧
    greyDouble r g b / 2 ^ 56 < 256 ∧
    greyOf 255 255 255 = 255 := by
  have h := greyOf_near_exact r g b
  have hv := greyOf_val r g b
  have hlt := (greyOf r g b).isLt
  have hr := r.isLt
  have hg := g.isLt
  have hb := b.isLt
  have hex : min r.val (min g.val b.val) ≤ greyExact r g b ∧
      greyExact r g b ≤ max r.val (max g.val b.val) := by
    unfold greyExact; omega
  refine ⟨by omega, by omega, by omega, by decide⟩

/-- With the binary64 weights the neutral pixel (1, 1, 1) is stored as 0: the exact sum of the
three binary64 constants already lies below 1. -/
theorem greyOf_neutral_one :
    greyOf 1 1 1 = 0 ∧ greyExact 1 1 1 = 1 ∧ D030 * 1 + D059 * 1 + D011 * 1 < 1 * 2 ^ 56 := by
  decide

theorem swapCh_swapCh (c : Nat) : swapCh (swapCh c) = c := by
  unfold swapCh
  by_cases h0 : c = 0
  · subst h0; simp
  · by_cases h2 : c = 2
    · subst h2; simp
    · simp [h0, h2]

theorem swapCh_lt (mode c : Nat) (hm : 3 ≤ mode) (hc : c < mode) : swapCh c < mode := by
  unfold swapCh
  split_ifs <;> omega

theorem swapCh_fixed (c : Nat) (h0 : c ≠ 0) (h2 : c ≠ 2) : swapCh c = c := by
  unfold swapCh
  rw [if_neg h0, if_neg h2]

/-- C18: for every `mode >= 3` and every buffer whose length is a multiple
`n * mode` of `mode` (the `int` value `total`, hence below `2^31`), the swap
loop completes with a buffer of the same length in which every byte at an
index `i` with `i mod mode` other than 0 and 2 is unchanged, and a second
application returns the original buffer. The loop is called as
`_tgaLoadImageData` calls it, with `total = n * mode`. -/
theorem C18_swap_involution (mode n : Nat) (d : List Byte) (hm : 3 ≤ mode)
    (hlen : d.length = n * mode) (hb : n * mode < 2 ^ 31) :
    ∃ d1, swapLoop mode ((n * mode : Nat) : Int) (n * mode) 0 d = some d1 ∧
      d1.length = d.length ∧
      (∀ i, i % mode ≠ 0 → i % mode ≠ 2 → d1[i]? = d[i]?) ∧
      swapLoop mode ((n * mode : Nat) : Int) (n * mode) 0 d1 = some d := by
  have hfuel : n ≤ n * mode := by
    calc n = n * 1 := (Nat.mul_one n).symm
      _ ≤ n * mode := Nat.mul_le_mul_left n (by omega)
  obtain ⟨d1, h1, hl1, hs1⟩ := swapLoop_spec mode n hm hb n 0 (n * mode) d (by omega) hfuel hlen
  obtain ⟨d2, h2, hl2, hs2⟩ := swapLoop_spec mode n hm hb n 0 (n * mode) d1 (by omega) hfuel
    (by omega)
  rw [Nat.zero_mul] at h1 h2
  have hsplit : ∀ i, i = (i / mode) * mode + i % mode := by
    intro i
    rw [Nat.mul_comm]; exact (Nat.div_add_mod i mode).symm
  refine ⟨d1, h1, hl1, ?_, ?_⟩
  · intro i h0 h2'
    have hc : i % mode < mode := Nat.mod_lt _ (by omega)
    have := hs1 (i / mode) (i % mode) hc
    rw [if_pos (Nat.zero_le _), swapCh_fixed _ h0 h2', ← hsplit i] at this
    exact this
  · rw [h2]
    congr 1
    apply List.ext_getElem?
    intro i
    have hc : i % mode < mode := Nat.mod_lt _ (by omega)
    rw [hsplit i, hs2 _ _ hc, if_pos (Nat.zero_le _),
      hs1 _ _ (swapCh_lt mode _ hm hc), if_pos (Nat.zero_le _), swapCh_swapCh]

/-- C18 at a buffer of two RGBA pixels. -/
theorem C18_swap_involution_witness :
    ∃ d1, swapLoop 4 ((2 * 4 : Nat) : Int) (2 * 4) 0 [1, 2, 3, 4, 5, 6, 7, 8] = some d1 ∧
      d1.length = ([1, 2, 3, 4, 5, 6, 7, 8] : List Byte).length ∧
      (∀ i, i % 4 ≠ 0 → i % 4 ≠ 2 → d1[i]? = ([1, 2, 3, 4, 5, 6, 7, 8] : List Byte)[i]?) ∧
      swapLoop 4 ((2 * 4 : Nat) : Int) (2 * 4) 0 d1 = some [1, 2, 3, 4, 5, 6, 7, 8] :=
  C18_swap_involution 4 2 [1, 2, 3, 4, 5, 6, 7, 8] (by decide) (by decide) (by decide)

/-! ## C19: a second greyscale conversion -/

/-- C19: for every descriptor with `pixelDepth` 24 or 32 and a granted
allocation, after a completed call of `tgaRGBtoGreyscale` a second call
returns the same descriptor and leaves the heap alone, whatever the heap would
grant; two calls in a row give what one call gives. The first call completes
for every positive `width` and `height` with a buffer of
`width * height * mode < 2^31` bytes. -/
theorem C19_second_call_noop (heap : Heap) (info : tgaInfo)
    (hdepth : info.pixelDepth = 24 ∨ info.pixelDepth = 32)
    (hg : heap.grants ((toSizeT info.height * toSizeT info.width) % 2 ^ 64) = true) :
    (∀ info1 heap1, tgaRGBtoGreyscale heap info = some (info1, heap1) →
      (∀ heap2, tgaRGBtoGreyscale heap2 info1 = some (info1, heap2)) ∧
      greyTimes 2 heap info = greyTimes 1 heap info) ∧
    (∀ (src : List Byte) (n : Nat), 0 < info.width → 0 < info.height →
      (n : Int) = info.width * info.height → info.imageData = some src →
      src.length = n * (info.pixelDepth.val / 8) →
      n * (info.pixelDepth.val / 8) < 2 ^ 31 →
      ∃ info1 heap1, tgaRGBtoGreyscale heap info = some (info1, heap1)) := by
  have h8 : info.pixelDepth ≠ 8 := by rcases hdepth with h | h <;> rw [h] <;> decide
  have hm : 3 ≤ info.pixelDepth.val / 8 := by rcases hdepth with h | h <;> rw [h] <;> decide
  constructor
  · intro info1 heap1 h
    have hd8 := (greyscale_frame heap heap1 info info1 h8 hg h).1
    have hsecond : ∀ heap2, tgaRGBtoGreyscale heap2 info1 = some (info1, heap2) := by
      intro heap2
      simp [tgaRGBtoGreyscale, hd8]
    refine ⟨hsecond, ?_⟩
    simp [greyTimes, h, hsecond]
  · intro src n hw hh hn hsrc hlen hb
    have hn31 : n < 2 ^ 31 := by
      calc n = n * 1 := (Nat.mul_one n).symm
        _ ≤ n * (info.pixelDepth.val / 8) := Nat.mul_le_mul_left n (by omega)
        _ < 2 ^ 31 := hb
    have hread : ∀ j, j < n → j * (info.pixelDepth.val / 8) + 2 < src.length := by
      intro j hj
      have := Nat.mul_le_mul_right (info.pixelDepth.val / 8) (show j + 1 ≤ n by omega)
      rw [Nat.add_mul, Nat.one_mul] at this
      omega
    have hsize : (toSizeT info.height * toSizeT info.width) % 2 ^ 64 = n :=
      grey_request _ _ n hw hh hn hn31
    rw [hsize] at hg
    obtain ⟨dst, hd, -⟩ := greyscale_defined heap info src n h8 hw hh hn hn31 hsrc hread hb hg
    exact ⟨_, _, hd⟩

/-- C19 at the 3 x 1 RGB image. -/
theorem C19_second_call_noop_witness :
    (∀ info1 heap1, tgaRGBtoGreyscale sampleHeap sampleRGB = some (info1, heap1) →
      (∀ heap2, tgaRGBtoGreyscale heap2 info1 = some (info1, heap2)) ∧
      greyTimes 2 sampleHeap sampleRGB = greyTimes 1 sampleHeap sampleRGB) ∧
    (∀ (src : List Byte) (n : Nat), 0 < sampleRGB.width → 0 < sampleRGB.height →
      (n : Int) = sampleRGB.width * sampleRGB.height → sampleRGB.imageData = some src →
      src.length = n * (sampleRGB.pixelDepth.val / 8) →
      n * (sampleRGB.pixelDepth.val / 8) < 2 ^ 31 →
      ∃ info1 heap1, tgaRGBtoGreyscale sampleHeap sampleRGB = some (info1, heap1)) :=
  C19_second_call_noop sampleHeap sampleRGB (Or.inl rfl) (by decide)

end Tga
